import Mathlib

/-!
Verification development for the `extraction-cas-cliniques` repository
(`src/app/radiology_extractor.py`, `src/app/main.py`, `src/app.py`).

The Python sources are shallowly embedded: texts are `List Char`
(Python `str` is a sequence of code points), Python dicts are
insertion-ordered association lists, and the concrete regular
expressions of the source are transcribed into a small `Rx` syntax
executed by a backtracking engine (`mAll`) that mirrors Python `re`
semantics: leftmost search, greedy/lazy repetition via result ordering,
ordered alternation, positive lookahead, capture groups, `$` matching
at end of input or before a lone trailing newline, and word boundaries.

Modelling notes, stated once here:
* `\d` is modelled as the ASCII digits, `[A-Z]` as the ASCII range, and
  case mapping (`str.lower`, `re.IGNORECASE`) over the Latin repertoire
  actually used by the repository's patterns (ASCII plus the accented
  letters appearing in the source); characters outside that repertoire
  are left fixed.
* `\s` and `str.strip()` use Python's whitespace set (ASCII whitespace
  plus the Unicode spaces recognised by `str.isspace`).
* Python's `set()` has unspecified iteration order; where the source
  iterates over a set and the order is observable
  (`extract_sections`' signature cleanup) the embedding dedupes
  keeping first occurrences, and no theorem below depends on the
  chosen order.
-/

namespace CR

/-- Python whitespace (`\s` on `str`, and the default `str.strip()` set):
ASCII whitespace plus the Unicode space characters. -/
def isPySpace (c : Char) : Bool :=
  c = ' ' || c = '\t' || c = '\n' || c = '\r' || c = '\x0b' || c = '\x0c' ||
  c = '\x1c' || c = '\x1d' || c = '\x1e' || c = '\x1f' || c = '\x85' ||
  c = '\xa0' || c.toNat = 0x1680 ||
  (0x2000 ≤ c.toNat && c.toNat ≤ 0x200a) ||
  c.toNat = 0x2028 || c.toNat = 0x2029 || c.toNat = 0x202f ||
  c.toNat = 0x205f || c.toNat = 0x3000

/-- The character class of `clean_text`'s first substitution:
`[\x00-\x08\x0b-\x0c\x0e-\x1f\x7f-\x9f]`. -/
def isCleanCtl (c : Char) : Bool :=
  (c ≤ '\x08') || (c = '\x0b') || (c = '\x0c') ||
  ('\x0e' ≤ c && c ≤ '\x1f') || ('\x7f' ≤ c && c ≤ '\x9f')

/-- ASCII digit, the model of `\d`. -/
def isD (c : Char) : Bool := '0' ≤ c && c ≤ '9'

/-- ASCII upper-case letter, the model of `[A-Z]` without `IGNORECASE`. -/
def isUpA (c : Char) : Bool := 'A' ≤ c && c ≤ 'Z'

/-- ASCII lower-case letter. -/
def isLoA (c : Char) : Bool := 'a' ≤ c && c ≤ 'z'

/-- Model of `str.lower()` over the repertoire used by the source
(ASCII letters and the accented Latin capitals appearing in the
patterns); other characters are fixed. -/
def pyLower (c : Char) : Char :=
  if isUpA c then Char.ofNat (c.toNat + 32)
  else if c = 'À' then 'à' else if c = 'Â' then 'â' else if c = 'Ä' then 'ä'
  else if c = 'Ç' then 'ç' else if c = 'È' then 'è' else if c = 'É' then 'é'
  else if c = 'Ê' then 'ê' else if c = 'Ë' then 'ë' else if c = 'Î' then 'î'
  else if c = 'Ï' then 'ï' else if c = 'Ô' then 'ô' else if c = 'Ö' then 'ö'
  else if c = 'Ù' then 'ù' else if c = 'Û' then 'û' else if c = 'Ü' then 'ü'
  else c

/-- Lower-case an entire text (`str.lower()`). -/
def pyLowerL (l : List Char) : List Char := l.map pyLower

/-- Case-insensitive character comparison used for `re.IGNORECASE`
literals. -/
def ciEq (a b : Char) : Bool := pyLower a = pyLower b

/-- Membership of a character in an explicit list. -/
def chIn (cs : List Char) (c : Char) : Bool := cs.contains c

/-- Strip leading Python whitespace. -/
def lstripWs (l : List Char) : List Char := l.dropWhile (fun c => isPySpace c)

/-- Model of `str.strip()` with no arguments. -/
def pyStrip (l : List Char) : List Char :=
  ((l.dropWhile (fun c => isPySpace c)).reverse.dropWhile
    (fun c => isPySpace c)).reverse

/-- One step of `re.sub(r'\s+', ' ', text)`: collapse every maximal run
of whitespace into a single space. -/
def collapseWs : List Char → List Char
  | [] => []
  | [c] => [if isPySpace c then ' ' else c]
  | c1 :: c2 :: rest =>
      if isPySpace c1 && isPySpace c2 then collapseWs (c2 :: rest)
      else (if isPySpace c1 then ' ' else c1) :: collapseWs (c2 :: rest)

/-- `clean_text` of `radiology_extractor.py` (the function in `main.py`
is line-for-line identical): control characters become spaces,
whitespace runs collapse to a single space, and the ends are stripped.
The `if not text: return ""` guard is absorbed: every step maps the
empty text to the empty text. -/
def clean_text (l : List Char) : List Char :=
  pyStrip (collapseWs (l.map (fun c => if isCleanCtl c then ' ' else c)))

/-- Python substring test `needle in hay` (contiguous). -/
def strContainsB (hay needle : List Char) : Bool :=
  match hay with
  | [] => needle.isEmpty
  | _ :: rest => needle.isPrefixOf hay || strContainsB rest needle

/-! ## A backtracking regular-expression engine

`Rx` is the abstract syntax of the concrete patterns appearing in the
source; `mAll` enumerates, in Python's backtracking preference order,
every way a pattern can match a prefix of the input.  The head of the
returned list is the match `re` would produce. -/

/-- Regular-expression syntax.  `chr` is a single-character class,
`starG`/`starL` are greedy/lazy Kleene stars, `look` is a positive
lookahead `(?=...)`, `grp` a numbered capture group, `eosAnchor` the
non-MULTILINE `$`, and `wordB` the boundary `\b`. -/
inductive Rx where
  | eps : Rx
  | chr : (Char → Bool) → Rx
  | cat : Rx → Rx → Rx
  | alt : Rx → Rx → Rx
  | starG : Rx → Rx
  | starL : Rx → Rx
  | look : Rx → Rx
  | grp : Nat → Rx → Rx
  | eosAnchor : Rx
  | wordB : Rx

/-- One way a pattern can match at the current position: the consumed
characters, the remaining suffix, and the captures made. -/
structure MRes where
  consumed : List Char
  rem : List Char
  caps : List (Nat × List Char)
deriving DecidableEq, Repr

/-- The character preceding the engine's current position after
consuming `consumed`, falling back to the previous context character;
used for `\b`. -/
def lastCtx (prev : Option Char) (consumed : List Char) : Option Char :=
  match consumed.getLast? with
  | some c => some c
  | none => prev

/-- Whether an optional character is a word character for `\b`
(ASCII letters, digits, underscore and the accented letters of the
source's repertoire). -/
def isPyWord (c : Char) : Bool :=
  isUpA c || isLoA c || isD c || c = '_' ||
  chIn "àâäçèéêëîïôöùûü".data c || chIn "ÀÂÄÇÈÉÊËÎÏÔÖÙÛÜ".data c

/-- `isPyWord` on an optional character, `none` (text edge) counting as
a non-word position. -/
def isPyWordO : Option Char → Bool
  | some c => isPyWord c
  | none => false

/-- Combine a first partial match with a continuation match. -/
def mCat (r s : MRes) : MRes :=
  ⟨r.consumed ++ s.consumed, s.rem, r.caps ++ s.caps⟩

/-- Iterate a greedy repetition: continue with the body first (longer
matches preferred), then stop.  A body iteration that consumes nothing
ends the repetition, as in Python.  `step` is the body's matcher. -/
def starRunG (step : Option Char → List Char → List MRes) :
    Nat → Option Char → List Char → List MRes
  | 0, _, xs => [⟨[], xs, []⟩]
  | fuel + 1, prev, xs =>
      (((step prev xs).filter (fun r => r.rem.length < xs.length)).flatMap
        (fun r =>
          (starRunG step fuel (lastCtx prev r.consumed) r.rem).map
            (fun s => mCat r s)))
      ++ [⟨[], xs, []⟩]

/-- Iterate a lazy repetition: stop first, then continue with the body
(shorter matches preferred). -/
def starRunL (step : Option Char → List Char → List MRes) :
    Nat → Option Char → List Char → List MRes
  | 0, _, xs => [⟨[], xs, []⟩]
  | fuel + 1, prev, xs =>
      ⟨[], xs, []⟩ ::
      (((step prev xs).filter (fun r => r.rem.length < xs.length)).flatMap
        (fun r =>
          (starRunL step fuel (lastCtx prev r.consumed) r.rem).map
            (fun s => mCat r s)))

/-- All matches of `rx` against a prefix of `xs`, in backtracking
preference order; `prev` is the character just before the current
position (for `\b`). -/
def mAll : Rx → Option Char → List Char → List MRes
  | .eps, _, xs => [⟨[], xs, []⟩]
  | .chr p, _, xs =>
      match xs with
      | [] => []
      | x :: rest => if p x then [⟨[x], rest, []⟩] else []
  | .cat a b, prev, xs =>
      (mAll a prev xs).flatMap (fun r =>
        (mAll b (lastCtx prev r.consumed) r.rem).map (fun s => mCat r s))
  | .alt a b, prev, xs => mAll a prev xs ++ mAll b prev xs
  | .starG a, prev, xs => starRunG (mAll a) (xs.length + 1) prev xs
  | .starL a, prev, xs => starRunL (mAll a) (xs.length + 1) prev xs
  | .look a, prev, xs =>
      match mAll a prev xs with
      | [] => []
      | r :: _ => [⟨[], xs, r.caps⟩]
  | .grp n a, prev, xs =>
      (mAll a prev xs).map (fun r =>
        ⟨r.consumed, r.rem, r.caps ++ [(n, r.consumed)]⟩)
  | .eosAnchor, _, xs =>
      match xs with
      | [] => [⟨[], [], []⟩]
      | ['\n'] => [⟨[], ['\n'], []⟩]
      | _ => []
  | .wordB, prev, xs =>
      if isPyWordO prev ≠ isPyWordO xs.head? then [⟨[], xs, []⟩] else []

/-- The capture of group `n` in a match (the last capture wins, as in
Python). -/
def capGet (r : MRes) (n : Nat) : Option (List Char) :=
  (r.caps.reverse.find? (fun p => p.1 = n)).map (fun p => p.2)

/-- The capture of group `n`, defaulting to the empty string. -/
def capGetD (r : MRes) (n : Nat) : List Char := (capGet r n).getD []

/-- Leftmost search (`re.search`): try each start position from the
left; at the first position with a match, return the engine's preferred
match there. -/
def reSearchAux (rx : Rx) (prev : Option Char) : List Char → Option MRes
  | [] => (mAll rx prev []).head?
  | x :: rest =>
      match (mAll rx prev (x :: rest)).head? with
      | some r => some r
      | none => reSearchAux rx (some x) rest

/-- `re.search` on a whole text. -/
def reSearch (rx : Rx) (text : List Char) : Option MRes :=
  reSearchAux rx none text

/-- Non-overlapping scan used by `re.finditer` / `re.findall`: collect
the matches left to right, resuming after each non-empty match and one
character after each empty match. -/
def findAllAux (rx : Rx) : Nat → Option Char → List Char → List MRes
  | 0, _, _ => []
  | fuel + 1, prev, xs =>
      match (mAll rx prev xs).head? with
      | some r =>
          if r.consumed.isEmpty then
            r :: (match xs with
                  | [] => []
                  | x :: rest => findAllAux rx fuel (some x) rest)
          else r :: findAllAux rx fuel (lastCtx prev r.consumed) r.rem
      | none =>
          match xs with
          | [] => []
          | x :: rest => findAllAux rx fuel (some x) rest

/-- All non-overlapping matches of `rx` in `text`. -/
def reFindAll (rx : Rx) (text : List Char) : List MRes :=
  findAllAux rx (text.length + 1) none text

/-- `re.sub(pattern, '', text)`: delete every non-overlapping match. -/
def reSubDelAux (rx : Rx) : Nat → Option Char → List Char → List Char
  | 0, _, xs => xs
  | fuel + 1, prev, xs =>
      match (mAll rx prev xs).head? with
      | some r =>
          if r.consumed.isEmpty then
            match xs with
            | [] => []
            | x :: rest => x :: reSubDelAux rx fuel (some x) rest
          else reSubDelAux rx fuel (lastCtx prev r.consumed) r.rem
      | none =>
          match xs with
          | [] => []
          | x :: rest => x :: reSubDelAux rx fuel (some x) rest

/-- Delete every match of `rx` from `text`. -/
def reSubDel (rx : Rx) (text : List Char) : List Char :=
  reSubDelAux rx (text.length + 1) none text

/-- Substitution of an anchored pattern `^...` by the empty string: the
pattern can only ever match at the start, so at most the leading match
is removed. -/
def reSubDelAnchored (rx : Rx) (text : List Char) : List Char :=
  match (mAll rx none text).head? with
  | some r => r.rem
  | none => text

/-! Pattern-building helpers. -/

/-- Concatenate a list of patterns. -/
def rxSeq (l : List Rx) : Rx := l.foldr Rx.cat Rx.eps

/-- Ordered alternation of a non-empty list of patterns (first
preferred); the empty list never matches. -/
def rxAlts (l : List Rx) : Rx :=
  match l with
  | [] => Rx.chr (fun _ => false)
  | [a] => a
  | a :: b :: rest => Rx.alt a (rxAlts (b :: rest))

/-- A literal string matched with a character-comparison function
(`ciEq` for `re.IGNORECASE`, plain equality otherwise). -/
def rxStrWith (eq : Char → Char → Bool) (s : String) : Rx :=
  rxSeq (s.data.map (fun c => Rx.chr (fun x => eq c x)))

/-- Case-insensitive literal. -/
def rxStrCI (s : String) : Rx := rxStrWith ciEq s

/-- Case-sensitive literal. -/
def rxStrCS (s : String) : Rx := rxStrWith (fun a b => a = b) s

/-- Greedy option `a?`. -/
def rxOptG (a : Rx) : Rx := Rx.alt a Rx.eps

/-- Greedy plus `a+`. -/
def rxPlusG (a : Rx) : Rx := Rx.cat a (Rx.starG a)

/-- `\s` as a pattern. -/
def rxSp : Rx := Rx.chr isPySpace

/-- `\s*` (greedy). -/
def rxSpStar : Rx := Rx.starG rxSp

/-- `\s+` (greedy). -/
def rxSpPlus : Rx := rxPlusG rxSp

/-- `\d` as a pattern. -/
def rxD : Rx := Rx.chr isD

/-- A single literal character. -/
def rxCh (c : Char) : Rx := Rx.chr (fun x => x = c)

/-- ASCII letter: the class `[A-Z]` (or `[a-z]`) as widened by
`re.IGNORECASE`. -/
def isLetterA (c : Char) : Bool := isUpA c || isLoA c

/-- Number of capture groups in a pattern (`len(match.groups())` in
Python depends only on the pattern). -/
def grpCount : Rx → Nat
  | .eps => 0
  | .chr _ => 0
  | .cat a b => grpCount a + grpCount b
  | .alt a b => grpCount a + grpCount b
  | .starG a => grpCount a
  | .starL a => grpCount a
  | .look a => grpCount a
  | .grp _ a => grpCount a + 1
  | .eosAnchor => 0
  | .wordB => 0

/-! ## Python values, dictionaries and small string utilities -/

/-- A Python value stored in the patient-info dictionary: a string or
an integer. -/
inductive PVal where
  | s : List Char → PVal
  | i : Int → PVal
deriving DecidableEq, Repr

/-- Insertion-ordered dictionary update (`d[k] = v`): overwrite in
place when the key exists, append otherwise. -/
def dset {β : Type} : List (String × β) → String → β → List (String × β)
  | [], k, v => [(k, v)]
  | (k', v') :: rest, k, v =>
      if k' = k then (k, v) :: rest else (k', v') :: dset rest k v

/-- Dictionary lookup (`d.get(k)`). -/
def dget {β : Type} (d : List (String × β)) (k : String) : Option β :=
  (d.find? (fun p => p.1 = k)).map (fun p => p.2)

/-- Lookup in a string-valued dictionary, defaulting to a given
string. -/
def sgetD (d : List (String × List Char)) (k : String) (dflt : List Char) :
    List Char :=
  (dget d k).getD dflt

/-- Parse a digit string as a natural number (`int(...)` on the all-digit
captures of the source's patterns). -/
def pyIntNat (l : List Char) : Nat :=
  l.foldl (fun n c => n * 10 + (c.toNat - '0'.toNat)) 0

/-- Decimal rendering of a natural number. -/
def natStr (n : Nat) : List Char := Nat.toDigits 10 n

/-- Decimal rendering of an integer (`str(...)` in an f-string). -/
def intStr (n : Int) : List Char :=
  if n < 0 then '-' :: natStr n.natAbs else natStr n.natAbs

/-- Zero-pad a decimal rendering to a given width (`strftime`'s `%Y`,
`%m`, `%d`). -/
def padNum (w n : Nat) : List Char :=
  List.replicate (w - (natStr n).length) '0' ++ natStr n

/-- Python `str.split(sep)` with a one-character separator: splits at
every occurrence, keeping empty fields. -/
def pySplit (sep : Char) : List Char → List (List Char)
  | [] => [[]]
  | c :: rest =>
      match pySplit sep rest with
      | [] => [[]]
      | g :: gs => if c = sep then [] :: g :: gs else (c :: g) :: gs

/-- Join a list of strings with a separator (`sep.join(...)`). -/
def joinSep (sep : List Char) : List (List Char) → List Char
  | [] => []
  | [x] => x
  | x :: y :: rest => x ++ sep ++ joinSep sep (y :: rest)

/-- Deduplicate keeping first occurrences: the model of iterating over
`set(...)` (whose order Python leaves unspecified). -/
def dedupKeepFirst : List (List Char) → List (List Char)
  | [] => []
  | x :: rest =>
      x :: (dedupKeepFirst rest).filter (fun y => ¬(y = x))

/-! ## Calendar dates (`datetime.datetime(year, month, day)`) -/

/-- A calendar date as produced by `datetime(year, month, day)`. -/
structure PyDate where
  year : Nat
  month : Nat
  day : Nat
deriving DecidableEq, Repr

/-- Gregorian leap year. -/
def isLeap (y : Nat) : Bool := y % 4 = 0 && (y % 100 ≠ 0 || y % 400 = 0)

/-- Days in a month. -/
def daysInMonth (y m : Nat) : Nat :=
  if m = 2 then (if isLeap y then 29 else 28)
  else if m = 4 || m = 6 || m = 9 || m = 11 then 30
  else 31

/-- The `datetime` constructor: `some` on a valid date, `none` for the
`ValueError` the source catches (`MINYEAR = 1`, `MAXYEAR = 9999`). -/
def mkDatetime (y m d : Nat) : Option PyDate :=
  if 1 ≤ y && y ≤ 9999 && 1 ≤ m && m ≤ 12 && 1 ≤ d && d ≤ daysInMonth y m
  then some ⟨y, m, d⟩ else none

/-- `strftime("%Y%m%d")`. -/
def fmtYmd (d : PyDate) : List Char :=
  padNum 4 d.year ++ padNum 2 d.month ++ padNum 2 d.day

/-- `strftime("%Y-%m-%d")`. -/
def fmtYmdDash (d : PyDate) : List Char :=
  padNum 4 d.year ++ '-' :: padNum 2 d.month ++ '-' :: padNum 2 d.day

/-! ## Date extraction (`extract_date`)

`radiology_extractor.py` lines 162-188 and `main.py` lines 174-197.
The two files' pattern lists share their first three pattern strings
verbatim; the standalone bare-date pattern is present only in
`radiology_extractor.py`. -/

/-- Separator class `[.⁄-]`. -/
def isDateSep (c : Char) : Bool := c = '.' || c = '/' || c = '-'

/-- `\d{1,2}`: one digit then optionally a second (greedy). -/
def dTok : Rx := Rx.cat rxD (rxOptG rxD)

/-- `\d{4}`. -/
def dFour : Rx := rxSeq [rxD, rxD, rxD, rxD]

/-- `\d{1,2}[.⁄-]\d{1,2}[.⁄-]\d{4}`, the date core shared by every
date-bearing pattern of the source. -/
def dateCore : Rx :=
  rxSeq [dTok, Rx.chr isDateSep, dTok, Rx.chr isDateSep, dFour]

/-- `Examen\(s\)\s+du\s+(\d{1,2}[.⁄-]\d{1,2}[.⁄-]\d{4})`. -/
def datePat1 : Rx :=
  Rx.cat (rxStrCI "Examen(s)")
    (rxSeq [rxSpPlus, rxStrCI "du", rxSpPlus, Rx.grp 1 dateCore])

/-- `le\s+(\d{1,2}[.⁄-]\d{1,2}[.⁄-]\d{4})`. -/
def datePat2 : Rx :=
  Rx.cat (rxStrCI "le") (rxSeq [rxSpPlus, Rx.grp 1 dateCore])

/-- `Neuchâtel,\s*le\s*(\d{1,2}[.⁄-]\d{1,2}[.⁄-]\d{4})`. -/
def datePat3 : Rx :=
  Rx.cat (rxStrCI "Neuchâtel,")
    (rxSeq [rxSpStar, rxStrCI "le", rxSpStar, Rx.grp 1 dateCore])

/-- `(\d{1,2}[.⁄-]\d{1,2}[.⁄-]\d{4})` (only in
`radiology_extractor.py`). -/
def datePat4 : Rx := Rx.grp 1 dateCore

/-- The per-match body of `extract_date` (both files): normalise the
separators to `/`, split, and when the (third) year token has four
digits parse day/month/year — swapping to a year/month/day reading
when the first token has four digits; an invalid date (`ValueError`)
yields `none` and the caller moves on. -/
def tryParseDate (s : List Char) : Option PyDate :=
  let s2 := s.map (fun c => if isDateSep c then '/' else c)
  match pySplit '/' s2 with
  | [day, month, year] =>
      if year.length = 4 then
        if day.length = 4 then
          mkDatetime (pyIntNat day) (pyIntNat month) (pyIntNat year)
        else
          mkDatetime (pyIntNat year) (pyIntNat month) (pyIntNat day)
      else none
  | _ => none

/-- Comparison definition for claim C4: the per-match body with the
`len(day) == 4` swap branch removed. -/
def tryParseDateNoswap (s : List Char) : Option PyDate :=
  let s2 := s.map (fun c => if isDateSep c then '/' else c)
  match pySplit '/' s2 with
  | [day, month, year] =>
      if year.length = 4 then
        mkDatetime (pyIntNat year) (pyIntNat month) (pyIntNat day)
      else none
  | _ => none

/-- The two nested loops of `extract_date`: patterns in priority order,
all matches of each pattern in text order, first successfully parsed
date wins. -/
def extractDateCore (parse : List Char → Option PyDate) (pats : List Rx)
    (t : List Char) : Option PyDate :=
  pats.findSome? (fun p =>
    (reFindAll p t).findSome? (fun m => parse (capGetD m 1)))

/-- `extract_date` of `radiology_extractor.py`. -/
def extract_date_rad (t : List Char) : Option PyDate :=
  extractDateCore tryParseDate [datePat1, datePat2, datePat3, datePat4] t

/-- `extract_date` of `main.py` (no bare-date pattern). -/
def extract_date_main (t : List Char) : Option PyDate :=
  extractDateCore tryParseDate [datePat1, datePat2, datePat3] t

/-- Comparison definitions for claim C4: the extractors without the
swap branch. -/
def extract_date_rad_noswap (t : List Char) : Option PyDate :=
  extractDateCore tryParseDateNoswap [datePat1, datePat2, datePat3, datePat4] t

/-- The `main.py` extractor without the swap branch. -/
def extract_date_main_noswap (t : List Char) : Option PyDate :=
  extractDateCore tryParseDateNoswap [datePat1, datePat2, datePat3] t

/-! ## Patient information (`extract_patient_info`)

`radiology_extractor.py` lines 123-160 and `main.py` lines 137-172;
the two files' pattern strings and loops are identical.  The primary
patterns are searched without flags (case-sensitive), the identifier
fallback patterns with `re.IGNORECASE`. -/

/-- The name class `[A-Z\s\-\']` of the primary patterns. -/
def isNameCls (c : Char) : Bool :=
  isUpA c || isPySpace c || c = '-' || c = '\''

/-- The captured name `[A-Z][A-Z\s\-\']+`. -/
def nameGrp : Rx := Rx.cat (Rx.chr isUpA) (rxPlusG (Rx.chr isNameCls))

/-- Primary pattern 1: name, DOB, age, patient id and exam id. -/
def patPat1 : Rx :=
  rxSeq [Rx.grp 1 nameGrp, rxCh ',', rxSpStar, Rx.grp 2 dateCore,
    rxSpStar, rxCh '(', Rx.grp 3 (rxPlusG rxD), rxSpStar, rxStrCS "ans",
    rxCh ')', rxSpStar, rxCh '/', rxSpStar, Rx.grp 4 (rxPlusG rxD),
    rxSpStar, rxCh '/', rxSpStar,
    Rx.grp 5 (Rx.cat (Rx.chr isUpA) (rxPlusG rxD))]

/-- Primary pattern 2: name, DOB, age and patient id. -/
def patPat2 : Rx :=
  rxSeq [Rx.grp 1 nameGrp, rxCh ',', rxSpStar, Rx.grp 2 dateCore,
    rxSpStar, rxCh '(', Rx.grp 3 (rxPlusG rxD), rxSpStar, rxStrCS "ans",
    rxCh ')', rxSpStar, rxCh '/', rxSpStar, Rx.grp 4 (rxPlusG rxD)]

/-- Primary pattern 3: name, DOB and age only (note the extra `\s*`
before the comma). -/
def patPat3 : Rx :=
  rxSeq [Rx.grp 1 nameGrp, rxSpStar, rxCh ',', rxSpStar, Rx.grp 2 dateCore,
    rxSpStar, rxCh '(', Rx.grp 3 (rxPlusG rxD), rxSpStar, rxStrCS "ans",
    rxCh ')']

/-- Identifier fallback pattern `No de patient\s*[:]?\s*(\d+)`
(`re.IGNORECASE`). -/
def idPat1 : Rx :=
  rxSeq [rxStrCI "No de patient", rxSpStar, rxOptG (rxCh ':'), rxSpStar,
    Rx.grp 1 (rxPlusG rxD)]

/-- Identifier fallback pattern `IPP\s*(\d+)`. -/
def idPat2 : Rx :=
  rxSeq [rxStrCI "IPP", rxSpStar, Rx.grp 1 (rxPlusG rxD)]

/-- Identifier fallback pattern: a slash-delimited number of at least
six digits followed by an optional letter and digits. -/
def idPat3 : Rx :=
  rxSeq [rxCh '/', rxSpStar,
    Rx.grp 1 (rxSeq [rxD, rxD, rxD, rxD, rxD, rxD, Rx.starG rxD]),
    rxSpStar, rxCh '/', rxSpStar, rxOptG (Rx.chr isLetterA), rxPlusG rxD]

/-- Build the info dictionary from a primary match, in the source's
insertion order; `n` is the pattern's group count (`len(match.groups())`
in Python depends only on the pattern). -/
def buildPatientInfo (n : Nat) (m : MRes) : List (String × PVal) :=
  [("patient_name", PVal.s (pyStrip (capGetD m 1))),
   ("patient_dob", PVal.s (capGetD m 2)),
   ("patient_age", PVal.i (Int.ofNat (pyIntNat (capGetD m 3))))]
  ++ (if 4 ≤ n then [("patient_identifier", PVal.s (capGetD m 4))] else [])
  ++ (if 5 ≤ n then [("exam_identifier", PVal.s (capGetD m 5))] else [])

/-- The primary loop: first pattern that matches wins, the rest are
never tried. -/
def primaryLoop (pats : List Rx) (t : List Char) : List (String × PVal) :=
  match pats with
  | [] => []
  | p :: rest =>
      match reSearch p t with
      | some m => buildPatientInfo (grpCount p) m
      | none => primaryLoop rest t

/-- The identifier fallback loop: first matching pattern's group 1. -/
def idFallback (pats : List Rx) (t : List Char) : Option (List Char) :=
  pats.findSome? (fun p => (reSearch p t).map (fun m => capGetD m 1))

/-- `extract_patient_info` of `radiology_extractor.py`. -/
def extract_patient_info_rad (t : List Char) : List (String × PVal) :=
  let info := primaryLoop [patPat1, patPat2, patPat3] t
  if (dget info "patient_identifier").isSome then info
  else
    match idFallback [idPat1, idPat2, idPat3] t with
    | some v => dset info "patient_identifier" (PVal.s v)
    | none => info

/-- The primary pattern list of `main.py` (byte-identical pattern
strings, transcribed separately). -/
def patPat1m : Rx :=
  rxSeq [Rx.grp 1 (Rx.cat (Rx.chr isUpA) (rxPlusG (Rx.chr isNameCls))),
    rxCh ',', rxSpStar,
    Rx.grp 2 (rxSeq [Rx.cat rxD (rxOptG rxD), Rx.chr isDateSep,
      Rx.cat rxD (rxOptG rxD), Rx.chr isDateSep, rxSeq [rxD, rxD, rxD, rxD]]),
    rxSpStar, rxCh '(', Rx.grp 3 (rxPlusG rxD), rxSpStar, rxStrCS "ans",
    rxCh ')', rxSpStar, rxCh '/', rxSpStar, Rx.grp 4 (rxPlusG rxD),
    rxSpStar, rxCh '/', rxSpStar,
    Rx.grp 5 (Rx.cat (Rx.chr isUpA) (rxPlusG rxD))]

/-- Pattern 2 of `main.py`. -/
def patPat2m : Rx :=
  rxSeq [Rx.grp 1 (Rx.cat (Rx.chr isUpA) (rxPlusG (Rx.chr isNameCls))),
    rxCh ',', rxSpStar,
    Rx.grp 2 (rxSeq [Rx.cat rxD (rxOptG rxD), Rx.chr isDateSep,
      Rx.cat rxD (rxOptG rxD), Rx.chr isDateSep, rxSeq [rxD, rxD, rxD, rxD]]),
    rxSpStar, rxCh '(', Rx.grp 3 (rxPlusG rxD), rxSpStar, rxStrCS "ans",
    rxCh ')', rxSpStar, rxCh '/', rxSpStar, Rx.grp 4 (rxPlusG rxD)]

/-- Pattern 3 of `main.py`. -/
def patPat3m : Rx :=
  rxSeq [Rx.grp 1 (Rx.cat (Rx.chr isUpA) (rxPlusG (Rx.chr isNameCls))),
    rxSpStar, rxCh ',', rxSpStar,
    Rx.grp 2 (rxSeq [Rx.cat rxD (rxOptG rxD), Rx.chr isDateSep,
      Rx.cat rxD (rxOptG rxD), Rx.chr isDateSep, rxSeq [rxD, rxD, rxD, rxD]]),
    rxSpStar, rxCh '(', Rx.grp 3 (rxPlusG rxD), rxSpStar, rxStrCS "ans",
    rxCh ')']

/-- `extract_patient_info` of `main.py` (its fallback pattern strings
are also identical to the other file's). -/
def extract_patient_info_main (t : List Char) : List (String × PVal) :=
  let info := primaryLoop [patPat1m, patPat2m, patPat3m] t
  if (dget info "patient_identifier").isSome then info
  else
    match idFallback [idPat1, idPat2, idPat3] t with
    | some v => dset info "patient_identifier" (PVal.s v)
    | none => info

/-! ## Section splitting (`extract_sections`)

`radiology_extractor.py` lines 190-259 and `main.py` lines 199-265.
The five section pattern lists are identical between the two files;
only the signature patterns differ.  All patterns are searched with
`re.IGNORECASE | re.DOTALL`, so `.` matches any character and the
letter classes in the lookaheads match either case. -/

/-- `.` under `re.DOTALL`. -/
def rxAnyD : Rx := Rx.chr (fun _ => true)

/-- `.` without `re.DOTALL` (anything but a newline). -/
def rxAnyNoNl : Rx := Rx.chr (fun c => ¬(c = '\n'))

/-- The lookahead branch `\n\s*[A-Z][a-z]` (classes widened by
`IGNORECASE`). -/
def nlUL : Rx :=
  rxSeq [rxCh '\n', rxSpStar, Rx.chr isLetterA, Rx.chr isLetterA]

/-- The lookahead branch `\n\s*[A-Z][a-z]{2,}`. -/
def nlUL2 : Rx :=
  rxSeq [rxCh '\n', rxSpStar, Rx.chr isLetterA, Rx.chr isLetterA,
    Rx.chr isLetterA, Rx.starG (Rx.chr isLetterA)]

/-- First `exam_type` pattern:
`Examen\(s\)[^:]*:(.*?)(?=Indication|Technique|Comparatif|Description|Conclusion|\n\s*[A-Z][a-z]|$)`. -/
def examPat1 : Rx :=
  Rx.cat (rxStrCI "Examen(s)")
    (rxSeq [Rx.starG (Rx.chr (fun c => ¬(c = ':'))), rxCh ':',
      Rx.grp 1 (Rx.starL rxAnyD),
      Rx.look (rxAlts [rxStrCI "Indication", rxStrCI "Technique",
        rxStrCI "Comparatif", rxStrCI "Description", rxStrCI "Conclusion",
        nlUL, Rx.eosAnchor])])

/-- Fallback `exam_type` pattern `Examen\(s\)[^:]*:(.*)`. -/
def examPat2 : Rx :=
  Rx.cat (rxStrCI "Examen(s)")
    (rxSeq [Rx.starG (Rx.chr (fun c => ¬(c = ':'))), rxCh ':',
      Rx.grp 1 (Rx.starG rxAnyD)])

/-- First `indication` pattern (the source's lookahead lists
`Technique` twice; transcribed as written). -/
def indPat1 : Rx :=
  Rx.cat (rxStrCI "Indication")
    (rxSeq [rxSpStar, rxOptG (rxCh ':'), rxSpStar,
      Rx.grp 1 (Rx.starL rxAnyD),
      Rx.look (rxAlts [rxStrCI "Technique", rxStrCI "Comparatif",
        rxStrCI "Description", rxStrCI "Conclusion", rxStrCI "Technique",
        nlUL, Rx.eosAnchor])])

/-- Fallback `indication` pattern `Indication\s*:?\s*(.*)`. -/
def indPat2 : Rx :=
  Rx.cat (rxStrCI "Indication")
    (rxSeq [rxSpStar, rxOptG (rxCh ':'), rxSpStar,
      Rx.grp 1 (Rx.starG rxAnyD)])

/-- First `technique` pattern. -/
def techPat1 : Rx :=
  Rx.cat (rxStrCI "Technique")
    (rxSeq [rxSpStar, rxOptG (rxCh ':'), rxSpStar,
      Rx.grp 1 (Rx.starL rxAnyD),
      Rx.look (rxAlts [rxStrCI "Comparatif", rxStrCI "Description",
        rxStrCI "Conclusion", nlUL, Rx.eosAnchor])])

/-- Fallback `technique` pattern. -/
def techPat2 : Rx :=
  Rx.cat (rxStrCI "Technique")
    (rxSeq [rxSpStar, rxOptG (rxCh ':'), rxSpStar,
      Rx.grp 1 (Rx.starG rxAnyD)])

/-- First `description` pattern. -/
def descPat1 : Rx :=
  Rx.cat (rxStrCI "Description")
    (rxSeq [rxSpStar, rxOptG (rxCh ':'), rxSpStar,
      Rx.grp 1 (Rx.starL rxAnyD),
      Rx.look (rxAlts [rxStrCI "Conclusion", rxStrCI "Validé",
        rxStrCI "Docteur", nlUL2, Rx.eosAnchor])])

/-- Fallback `description` pattern. -/
def descPat2 : Rx :=
  Rx.cat (rxStrCI "Description")
    (rxSeq [rxSpStar, rxOptG (rxCh ':'), rxSpStar,
      Rx.grp 1 (Rx.starG rxAnyD)])

/-- First `conclusion` pattern. -/
def concPat1 : Rx :=
  Rx.cat (rxStrCI "Conclusion")
    (rxSeq [rxSpStar, rxOptG (rxCh ':'), rxSpStar,
      Rx.grp 1 (Rx.starL rxAnyD),
      Rx.look (rxAlts [rxStrCI "Validé", rxStrCI "Docteur",
        rxStrCI "En restant", rxStrCI "NB :", nlUL2, Rx.eosAnchor])])

/-- Fallback `conclusion` pattern. -/
def concPat2 : Rx :=
  Rx.cat (rxStrCI "Conclusion")
    (rxSeq [rxSpStar, rxOptG (rxCh ':'), rxSpStar,
      Rx.grp 1 (Rx.starG rxAnyD)])

/-- The anchored bullet-stripping pattern `^\s*[-*•]\s*` (so at most a
leading match is removed). -/
def bulletPat : Rx :=
  rxSeq [rxSpStar, Rx.chr (fun c => c = '-' || c = '*' || c = '•'), rxSpStar]

/-- Content cleanup applied to a captured section: `strip()`, strip a
leading bullet, collapse whitespace. -/
def sectionContent (m : MRes) : List Char :=
  collapseWs (reSubDelAnchored bulletPat (pyStrip (capGetD m 1)))

/-- One iteration of the section loop: the first pattern that matches
sets the key and breaks; otherwise the dictionary is unchanged. -/
def applySection (d : List (String × List Char)) (key : String)
    (pats : List Rx) (t : List Char) : List (String × List Char) :=
  match pats.findSome? (fun p => reSearch p t) with
  | some m => dset d key (sectionContent m)
  | none => d

/-- Signature pattern
`Valid[ée]\s+(?:électroniquement\s+)?par\s+([^,\n]+)` (both files). -/
def sigPat1 : Rx :=
  rxSeq [rxStrCI "Valid",
    Rx.chr (fun c => c = 'é' || c = 'e' || c = 'É' || c = 'E'),
    rxSpPlus, rxOptG (Rx.cat (rxStrCI "électroniquement") rxSpPlus),
    rxStrCI "par", rxSpPlus,
    Rx.grp 1 (rxPlusG (Rx.chr (fun c => ¬(c = ',' || c = '\n'))))]

/-- A capitalised word pair `[A-Z][a-z]+\s+[A-Z][a-z]+` (classes
widened by `IGNORECASE`). -/
def namePair : Rx :=
  rxSeq [Rx.chr isLetterA, rxPlusG (Rx.chr isLetterA), rxSpPlus,
    Rx.chr isLetterA, rxPlusG (Rx.chr isLetterA)]

/-- Signature pattern of `radiology_extractor.py`:
`Docteur\s+([A-Z][a-z]+\s+[A-Z][a-z]+)(?:\s*,\s*[^,\n]+)?`. -/
def sigPat2rad : Rx :=
  rxSeq [rxStrCI "Docteur", rxSpPlus, Rx.grp 1 namePair,
    rxOptG (rxSeq [rxSpStar, rxCh ',', rxSpStar,
      rxPlusG (Rx.chr (fun c => ¬(c = ',' || c = '\n')))])]

/-- Signature pattern of `main.py`:
`Docteur\s+([A-Z][a-z]+\s+[A-Z][a-z]+)`. -/
def sigPat2main : Rx :=
  rxSeq [rxStrCI "Docteur", rxSpPlus, Rx.grp 1 namePair]

/-- Third signature pattern of `radiology_extractor.py`: two word
pairs separated by a slash, both captured. -/
def sigPat3rad : Rx :=
  rxSeq [Rx.grp 1 namePair, rxSpStar, rxCh '/', rxSpStar,
    Rx.grp 2 namePair]

/-- Collect signature candidates from one single-group pattern
(`findall` yields the group; `signatures.append(match.strip())`). -/
def sigsOfSingle (p : Rx) (t : List Char) : List (List Char) :=
  (reFindAll p t).map (fun m => pyStrip (capGetD m 1))

/-- Collect signature candidates from the two-group pattern (`findall`
yields tuples; non-empty stripped components are kept). -/
def sigsOfPair (p : Rx) (t : List Char) : List (List Char) :=
  (reFindAll p t).flatMap (fun m =>
    ([pyStrip (capGetD m 1), pyStrip (capGetD m 2)]).filter
      (fun s => ¬s.isEmpty))

/-- The anchored title-stripping pattern `^\s*Docteur\s+`
(`re.IGNORECASE`). -/
def docteurPat : Rx := rxSeq [rxSpStar, rxStrCI "Docteur", rxSpPlus]

/-- The pattern `\s*Médecin.*$` (no flags: case-sensitive, `.` stops at
newlines, `$` at the end or before a trailing newline). -/
def medecinPat : Rx :=
  rxSeq [rxSpStar, rxStrCS "Médecin", Rx.starG rxAnyNoNl, Rx.eosAnchor]

/-- The signature cleanup loop shared by both files: strip a leading
`Docteur`, cut a trailing `Médecin...`, keep results longer than five
characters, and join with `; ` (iteration over `set(signatures)` is
modelled as first-occurrence order). -/
def cleanJoinSigs (sigs : List (List Char)) : List Char :=
  joinSep "; ".data
    (((dedupKeepFirst sigs).map (fun s =>
        reSubDel medecinPat (reSubDelAnchored docteurPat s))).filter
      (fun s => ¬s.isEmpty && 5 < s.length))

/-- The initial section dictionary (all keys present, empty). -/
def sectionsInit : List (String × List Char) :=
  [("exam_type", []), ("indication", []), ("technique", []),
   ("description", []), ("conclusion", []), ("validated_by", [])]

/-- The five-section loop shared verbatim by both files. -/
def sectionLoop (t : List Char) : List (String × List Char) :=
  let s1 := applySection sectionsInit "exam_type" [examPat1, examPat2] t
  let s2 := applySection s1 "indication" [indPat1, indPat2] t
  let s3 := applySection s2 "technique" [techPat1, techPat2] t
  let s4 := applySection s3 "description" [descPat1, descPat2] t
  applySection s4 "conclusion" [concPat1, concPat2] t

/-- `extract_sections` of `radiology_extractor.py`. -/
def extract_sections_rad (t : List Char) : List (String × List Char) :=
  dset (sectionLoop t) "validated_by"
    (cleanJoinSigs
      (sigsOfSingle sigPat1 t ++ sigsOfSingle sigPat2rad t ++
        sigsOfPair sigPat3rad t))

/-- `extract_sections` of `main.py` (two signature patterns only). -/
def extract_sections_main (t : List Char) : List (String × List Char) :=
  dset (sectionLoop t) "validated_by"
    (cleanJoinSigs (sigsOfSingle sigPat1 t ++ sigsOfSingle sigPat2main t))

/-! ## Specialty classification (`determine_specialty`)

`radiology_extractor.py` lines 261-285 and `main.py` lines 267-290. -/

/-- The fixed specialty enumeration `SPECIALTIES` (identical in both
files). -/
def SPECIALTIES : List String :=
  ["Breast", "Cardiac", "Gastrointestinal", "Genitourinary", "IA",
   "Interventional", "MSK", "Neuroradiology Brain", "Neuroradiology ORL",
   "Nuclearetmolecular", "Obstetrical", "Pediatrics", "Physics",
   "Spine", "Thoracic", "Vascular"]

/-- The keyword table `EXAM_TO_SPECIALTY` in insertion (iteration)
order (identical in both files). -/
def EXAM_TO_SPECIALTY : List (String × String) :=
  [("tdm cérébrale", "Neuroradiology Brain"),
   ("tdm cerebrale", "Neuroradiology Brain"),
   ("irm cérébrale", "Neuroradiology Brain"),
   ("irm cerebrale", "Neuroradiology Brain"),
   ("ct cérébrale", "Neuroradiology Brain"),
   ("perfusion", "Neuroradiology Brain"),
   ("carotides", "Neuroradiology ORL"),
   ("polygone de willis", "Neuroradiology Brain"),
   ("rachis", "Spine"),
   ("thorax", "Thoracic"),
   ("abdomen", "Gastrointestinal"),
   ("pelvis", "Genitourinary")]

/-- Keyword-group membership: some keyword occurs in the combined
text. -/
def anyKw (ks : List String) (combined : List Char) : Bool :=
  ks.any (fun k => strContainsB combined k.data)

/-- `determine_specialty` of `radiology_extractor.py`. -/
def determine_specialty_rad (exam tech : List Char) : List Char :=
  let combined := pyLowerL (exam ++ ' ' :: tech)
  match EXAM_TO_SPECIALTY.find? (fun p => strContainsB combined p.1.data) with
  | some p => p.2.data
  | none =>
      if anyKw ["cérébr", "cerveau", "encéphale", "crâne", "crânien",
          "brain", "cerebral"] combined then "Neuroradiology Brain".data
      else if anyKw ["carotide", "sinus", "oro", "facial", "neck"] combined
        then "Neuroradiology ORL".data
      else if anyKw ["rachis", "vertébr", "spine", "cervical", "lombaire"]
          combined then "Spine".data
      else if anyKw ["thorax", "poumon", "pulmon", "thoracique", "pulmonary"]
          combined then "Thoracic".data
      else "IA".data

/-- `determine_specialty` of `main.py` (shorter fallback keyword
lists). -/
def determine_specialty_main (exam tech : List Char) : List Char :=
  let combined := pyLowerL (exam ++ ' ' :: tech)
  match EXAM_TO_SPECIALTY.find? (fun p => strContainsB combined p.1.data) with
  | some p => p.2.data
  | none =>
      if anyKw ["cérébr", "cerveau", "encéphale", "crâne", "crânien"]
          combined then "Neuroradiology Brain".data
      else if anyKw ["carotide", "sinus", "oro", "facial"] combined
        then "Neuroradiology ORL".data
      else if anyKw ["rachis", "vertébr", "cervical", "lombaire"] combined
        then "Spine".data
      else if anyKw ["thorax", "poumon", "pulmon", "thoracique"] combined
        then "Thoracic".data
      else "IA".data

/-! ## Coherence validation (`validate_exam_technique_coherence`)

`radiology_extractor.py` lines 287-313. -/

/-- The fixed keyword-correspondence table, in source order. -/
def coherenceChecks : List (String × List String) :=
  [("tdm", ["tomodensitométrie", "acquisition", "reconstruction",
     "spiralée"]),
   ("irm", ["imagerie par résonance", "résonance", "irm"]),
   ("perfusion", ["perfusion", "injection"]),
   ("angio", ["angio", "vasculaire", "artériel"]),
   ("carotide", ["carotide", "vasculaire", "artériel"])]

/-- The incoherence message
`f"'{exam_term}' dans examen mais pas cohérent avec technique"`. -/
def incoMsg (et : String) : List Char :=
  '\'' :: et.data ++
    '\'' :: " dans examen mais pas cohérent avec technique".data

/-- The check loop: the first table entry whose exam keyword occurs in
the exam text but with no corresponding technique keyword fails the
validation. -/
def checksLoop (el tl : List Char) :
    List (String × List String) → Bool × List Char
  | [] => (true, "OK".data)
  | (et, tts) :: rest =>
      if strContainsB el et.data then
        if tts.any (fun w => strContainsB tl w.data) then
          checksLoop el tl rest
        else (false, incoMsg et)
      else checksLoop el tl rest

/-- `validate_exam_technique_coherence` of `radiology_extractor.py`. -/
def validate_exam_technique_coherence (exam technique : List Char) :
    Bool × List Char :=
  if exam.isEmpty && technique.isEmpty then
    (true, "Aucune information".data)
  else if exam.isEmpty then (false, "Examen manquant".data)
  else if technique.isEmpty then
    (true, "Technique manquante mais acceptable".data)
  else checksLoop (pyLowerL exam) (pyLowerL technique) coherenceChecks

/-! ## Report assembly

`extract_complete_report` (`main.py` lines 317-362) and
`extract_report` (`radiology_extractor.py` lines 323-377).  The latter
starts from PDF bytes; its I/O front end (`extract_text_from_pdf`) is
outside a shallow embedding, so the model `extract_report_fromText`
takes the extracted text as input and embeds everything from the
length guard on.  The coherence check inside `extract_report` only
feeds a log message and is not part of the returned value. -/

/-- Index of the last occurrence of a character. -/
def lastIdxOf (c : Char) : List Char → Option Nat
  | [] => none
  | x :: rest =>
      match lastIdxOf c rest with
      | some i => some (i + 1)
      | none => if x = c then some 0 else none

/-- The final path component (`pathlib` name, POSIX separators). -/
def pathName (p : List Char) : List Char :=
  match lastIdxOf '/' p with
  | some i => p.drop (i + 1)
  | none => p

/-- `Path(filename).stem`: the name without its last suffix; a dot at
the start or the very end does not begin a suffix. -/
def pathStem (p : List Char) : List Char :=
  let name := pathName p
  match lastIdxOf '.' name with
  | some i => if 0 < i && i + 1 < name.length then name.take i else name
  | none => name

/-- Render a stored patient-info value in an f-string. -/
def pvalStr : PVal → List Char
  | .s l => l
  | .i n => intStr n

/-- `info.get(key, default)` for the string-valued entries. -/
def infoGetS (info : List (String × PVal)) (k : String) (dflt : List Char) :
    List Char :=
  match dget info k with
  | some v => pvalStr v
  | none => dflt

/-- `info.get('patient_age')`: the stored integer, if any. -/
def infoGetAge (info : List (String × PVal)) : Option Int :=
  match dget info "patient_age" with
  | some (.i n) => some n
  | _ => none

/-- The structured report record assembled by both report builders
(Python returns a dict with exactly these keys). -/
structure Report where
  id : List Char
  exam_date : Option (List Char)
  patient_name : List Char
  patient_dob : List Char
  patient_age : Option Int
  patient_identifier : List Char
  exam_type : List Char
  specialty : List Char
  indication : List Char
  technique : List Char
  description : List Char
  conclusion : List Char
  validated_by : List Char
  raw_text : List Char
deriving DecidableEq, Repr

/-- `generate_report_id` of `radiology_extractor.py`. -/
def generate_report_id (exam_date : Option PyDate) (patient_id : List Char)
    (pdf_path : List Char) : List Char :=
  let date_part := match exam_date with
    | some d => fmtYmd d
    | none => "unknown_date".data
  let patient_part :=
    if patient_id.isEmpty then "unknown_patient".data else patient_id
  date_part ++ '_' :: patient_part ++ '_' :: pathStem pdf_path

/-- `extract_complete_report` of `main.py`: an error record exactly on
empty or too-short text, otherwise the structured report. -/
def extract_complete_report (text filename : List Char) :
    Except (List Char) Report :=
  if text.isEmpty || text.length < 100 then
    Except.error "Texte trop court ou vide".data
  else
    let patient_info := extract_patient_info_main text
    let exam_date := extract_date_main text
    let sections := extract_sections_main text
    let specialty := determine_specialty_main
      (sgetD sections "exam_type" []) (sgetD sections "technique" [])
    let date_part := match exam_date with
      | some d => fmtYmd d
      | none => "unknown_date".data
    let patient_part :=
      infoGetS patient_info "patient_identifier" "unknown_patient".data
    Except.ok
      { id := date_part ++ '_' :: patient_part ++ '_' :: pathStem filename,
        exam_date := exam_date.map fmtYmdDash,
        patient_name := infoGetS patient_info "patient_name" [],
        patient_dob := infoGetS patient_info "patient_dob" [],
        patient_age := infoGetAge patient_info,
        patient_identifier := infoGetS patient_info "patient_identifier" [],
        exam_type := sgetD sections "exam_type" [],
        specialty := specialty,
        indication := sgetD sections "indication" [],
        technique := sgetD sections "technique" [],
        description := sgetD sections "description" [],
        conclusion := sgetD sections "conclusion" [],
        validated_by := sgetD sections "validated_by" [],
        raw_text := text }

/-- `extract_report` of `radiology_extractor.py`, modelled from the
extracted text onward: `None` exactly on empty or too-short text,
otherwise the structured report. -/
def extract_report_fromText (text pdf_path : List Char) : Option Report :=
  if text.isEmpty || text.length < 100 then none
  else
    let patient_info := extract_patient_info_rad text
    let exam_date := extract_date_rad text
    let sections := extract_sections_rad text
    let specialty := determine_specialty_rad
      (sgetD sections "exam_type" []) (sgetD sections "technique" [])
    some
      { id := generate_report_id exam_date
          (infoGetS patient_info "patient_identifier" []) pdf_path,
        exam_date := exam_date.map fmtYmdDash,
        patient_name := infoGetS patient_info "patient_name" [],
        patient_dob := infoGetS patient_info "patient_dob" [],
        patient_age := infoGetAge patient_info,
        patient_identifier := infoGetS patient_info "patient_identifier" [],
        exam_type := sgetD sections "exam_type" [],
        specialty := specialty,
        indication := sgetD sections "indication" [],
        technique := sgetD sections "technique" [],
        description := sgetD sections "description" [],
        conclusion := sgetD sections "conclusion" [],
        validated_by := sgetD sections "validated_by" [],
        raw_text := text }

/-! ## The Streamlit variant (`app.py`)

`parse_sections` (`app.py` lines 36-51) with its `SECTION_PATTERNS`
and `SIGN_PATTERN`.  The patterns carry an inline `(?i)` and are
searched with `re.DOTALL`; the initial `\b` and the `\b` inside the
lookahead are word boundaries. -/

/-- Strip trailing spaces and tabs of a line
(`re.sub(r"[ \t]+$", "", text, flags=re.MULTILINE)` acts per line). -/
def rstripST (l : List Char) : List Char :=
  (l.reverse.dropWhile (fun c => c = ' ' || c = '\t')).reverse

/-- The MULTILINE trailing-blank cleanup of `parse_sections`. -/
def mlRstrip (t : List Char) : List Char :=
  joinSep ['\n'] ((pySplit '\n' t).map rstripST)

/-- The punctuation class `[:\-–]`. -/
def isColDash (c : Char) : Bool := c = ':' || c = '-' || c = '–'

/-- Build one `SECTION_PATTERNS` entry: `\b(words)\s*[:\-–]opt\s*(.+?)`
followed by the lookahead `(?=\n\s*(stopwords)\b|$)`. -/
def appSectionPat (words : List String) (colonOpt : Bool)
    (stops : List String) : Rx :=
  rxSeq [Rx.wordB, Rx.grp 1 (rxAlts (words.map rxStrCI)),
    rxSpStar,
    (if colonOpt then rxOptG (Rx.chr isColDash) else Rx.chr isColDash),
    rxSpStar,
    Rx.grp 2 (Rx.cat rxAnyD (Rx.starL rxAnyD)),
    Rx.look (Rx.alt
      (rxSeq [rxCh '\n', rxSpStar, Rx.grp 3 (rxAlts (stops.map rxStrCI)),
        Rx.wordB])
      Rx.eosAnchor)]

/-- The `indication` entry of `SECTION_PATTERNS`. -/
def appIndPat : Rx :=
  appSectionPat ["indication"] false
    ["technique", "description", "conclusion", "signa", "signature",
     "signataires"]

/-- The `technique` entry. -/
def appTechPat : Rx :=
  appSectionPat ["technique"] false
    ["indication", "description", "conclusion", "signa", "signature",
     "signataires"]

/-- The `description` entry (`description|compte\s*rendu`, optional
punctuation). -/
def appDescPat : Rx :=
  rxSeq [Rx.wordB,
    Rx.grp 1 (Rx.alt (rxStrCI "description")
      (rxSeq [rxStrCI "compte", rxSpStar, rxStrCI "rendu"])),
    rxSpStar, rxOptG (Rx.chr isColDash), rxSpStar,
    Rx.grp 2 (Rx.cat rxAnyD (Rx.starL rxAnyD)),
    Rx.look (Rx.alt
      (rxSeq [rxCh '\n', rxSpStar,
        Rx.grp 3 (rxAlts (["indication", "technique", "conclusion",
          "signa", "signature", "signataires"].map rxStrCI)),
        Rx.wordB])
      Rx.eosAnchor)]

/-- The `conclusion` entry (`conclusion|impression|résumé`, optional
punctuation). -/
def appConcPat : Rx :=
  appSectionPat ["conclusion", "impression", "résumé"] true
    ["indication", "technique", "description", "signa", "signature",
     "signataires"]

/-- Letters of `SIGN_PATTERN`'s classes, widened by `(?i)`: the ASCII
letters and the accented letters listed in the source (both classes
close to the same set under case folding). -/
def frLet (c : Char) : Bool :=
  isLetterA c || chIn "éèêàâîôûçÉÈÊÀÂÎÔÛÇ".data c

/-- The class `[\w\-\s']` of `SIGN_PATTERN`. -/
def isWordDashSp (c : Char) : Bool :=
  isPyWord c || c = '-' || isPySpace c || c = '\''

/-- `SIGN_PATTERN` of `app.py`: a `dr.`-prefixed run or a sequence of
at least two capitalised words, optionally followed by a title. -/
def signPat : Rx :=
  rxSeq [Rx.grp 1 (Rx.alt
      (rxSeq [rxStrCI "dr", rxOptG (rxCh '.'), rxSpPlus, Rx.chr frLet,
        rxPlusG (Rx.chr isWordDashSp)])
      (rxSeq [Rx.chr frLet, rxPlusG (Rx.chr frLet),
        rxPlusG (rxSeq [rxSpPlus, Rx.chr frLet, rxPlusG (Rx.chr frLet)])])),
    rxSpStar,
    rxOptG (rxAlts [rxStrCI "MD", rxStrCI "PhD", rxStrCI "FMH",
      rxStrCI "Radiologue"])]

/-- Line terminator recognised by `str.splitlines`. -/
def isLineTerm (c : Char) : Bool :=
  c = '\n' || c = '\r' || c = '\x0b' || c = '\x0c' || c = '\x1c' ||
  c = '\x1d' || c = '\x1e' || c = '\x85' ||
  c.toNat = 0x2028 || c.toNat = 0x2029

/-- Worker for `str.splitlines` (no trailing empty line, `\r\n`
counted once). -/
def slAux (cur : List Char) : List Char → List (List Char)
  | [] => [cur.reverse]
  | '\r' :: '\n' :: rest =>
      cur.reverse :: (if rest.isEmpty then [] else slAux [] rest)
  | c :: rest =>
      if isLineTerm c then
        cur.reverse :: (if rest.isEmpty then [] else slAux [] rest)
      else slAux (c :: cur) rest

/-- `str.splitlines()`. -/
def pySplitlines (l : List Char) : List (List Char) :=
  match l with
  | [] => []
  | _ => slAux [] l

/-- The last `n` elements of a list (`xs[-n:]`). -/
def lastN {α : Type} (n : Nat) (l : List α) : List α := l.drop (l.length - n)

/-- Lexicographic (code-point) order on strings, Python's `sorted`. -/
def lexLe (a b : List Char) : Bool :=
  match a, b with
  | [], _ => true
  | _ :: _, [] => false
  | x :: xs, y :: ys => if x = y then lexLe xs ys else decide (x < y)

/-- Insert into a sorted list. -/
def insSorted (x : List Char) : List (List Char) → List (List Char)
  | [] => [x]
  | y :: rest => if lexLe x y then x :: y :: rest else y :: insSorted x rest

/-- Insertion sort by code-point order. -/
def sortLex (l : List (List Char)) : List (List Char) := l.foldr insSorted []

/-- One `SECTION_PATTERNS` iteration of `parse_sections`: on a match
the key is set to the stripped second group. -/
def appApply (d : List (String × List Char)) (key : String) (pat : Rx)
    (t : List Char) : List (String × List Char) :=
  match reSearch pat t with
  | some m => dset d key (pyStrip (capGetD m 2))
  | none => d

/-- `parse_sections` of `app.py`: the four section searches over the
per-line-rstripped text, then the signatories collected from the last
thirty lines (a sorted, deduplicated join — `sorted(set(...))` is
deterministic). -/
def parse_sections (text : List Char) : List (String × List Char) :=
  let clean := mlRstrip text
  let o0 : List (String × List Char) :=
    [("indication", []), ("technique", []), ("description", []),
     ("conclusion", []), ("signataires", [])]
  let o1 := appApply o0 "indication" appIndPat clean
  let o2 := appApply o1 "technique" appTechPat clean
  let o3 := appApply o2 "description" appDescPat clean
  let o4 := appApply o3 "conclusion" appConcPat clean
  let tail := joinSep ['\n'] (lastN 30 (pySplitlines clean))
  dset o4 "signataires"
    (joinSep "; ".data
      (sortLex (dedupKeepFirst
        ((reFindAll signPat tail).map (fun m => capGetD m 1)))))

/-! ## Theorems -/

/-- The check loop returns the first violated table entry, i.e. it
agrees with a `find?` over the table. -/
theorem checksLoop_eq_find (el tl : List Char) :
    ∀ cs : List (String × List String),
    checksLoop el tl cs =
      match cs.find? (fun ch =>
          strContainsB el ch.1.data &&
          !(ch.2.any (fun w => strContainsB tl w.data))) with
      | some ch => (false, incoMsg ch.1)
      | none => (true, "OK".data) := by
  intro cs
  induction cs with
  | nil => rfl
  | cons hd tlist ih =>
      obtain ⟨et, tts⟩ := hd
      by_cases h1 : strContainsB el et.data = true
      · by_cases h2 :
          (tts.any (fun w => strContainsB tl w.data)) = true
        · simp only [checksLoop, h1, h2, if_true, List.find?,
            Bool.not_true, Bool.and_false, ih]
        · have h2' : (tts.any (fun w => strContainsB tl w.data)) = false :=
            Bool.eq_false_iff.2 h2
          simp only [checksLoop, h1, h2', if_true, if_false,
            Bool.false_eq_true, List.find?, Bool.not_false, Bool.and_true]
      · have h1' : strContainsB el et.data = false := Bool.eq_false_iff.2 h1
        simp only [checksLoop, h1', if_false, Bool.false_eq_true,
          List.find?, Bool.false_and, ih]

/-- C2: the coherence validator evaluates its rules in the fixed
order — both empty gives coherent with the no-information reason, a
missing exam is incoherent, a missing technique is acceptable, and
otherwise the first violated entry of the fixed table fails the check
with its incoherence message, no violation meaning coherent; in
particular `("tdm", "")` validates as technique-missing-acceptable and
`("tdm", "irm")` is rejected with an incoherence reason. -/
theorem claim_C2 :
    (∀ e t : List Char,
      validate_exam_technique_coherence e t =
        (if e.isEmpty && t.isEmpty then (true, "Aucune information".data)
         else if e.isEmpty then (false, "Examen manquant".data)
         else if t.isEmpty then
           (true, "Technique manquante mais acceptable".data)
         else
           match coherenceChecks.find? (fun ch =>
               strContainsB (pyLowerL e) ch.1.data &&
               !(ch.2.any (fun w => strContainsB (pyLowerL t) w.data))) with
           | some ch => (false, incoMsg ch.1)
           | none => (true, "OK".data)))
    ∧ validate_exam_technique_coherence "tdm".data [] =
        (true, "Technique manquante mais acceptable".data)
    ∧ validate_exam_technique_coherence "tdm".data "irm".data =
        (false, incoMsg "tdm")
    ∧ (validate_exam_technique_coherence "tdm".data "irm".data).1 = false := by
  refine ⟨fun e t => ?_, by decide, by decide, by decide⟩
  unfold validate_exam_technique_coherence
  split
  · rfl
  · split
    · rfl
    · split
      · rfl
      · exact checksLoop_eq_find (pyLowerL e) (pyLowerL t) coherenceChecks

/-- C3: the date extractor (in both files) parses
`"Examen(s) du 14.03.2022"` to 2022-03-14, and extracts no date from
`"41.15.2022"` because day 41 / month 15 make `datetime` fail and the
unparsable match is discarded. -/
theorem claim_C3 :
    extract_date_rad "Examen(s) du 14.03.2022".data =
      some ⟨2022, 3, 14⟩ ∧
    extract_date_main "Examen(s) du 14.03.2022".data =
      some ⟨2022, 3, 14⟩ ∧
    extract_date_rad "41.15.2022".data = none ∧
    extract_date_main "41.15.2022".data = none := by
  exact ⟨by decide, by decide, by decide, by decide⟩

/-- Every right-hand side in the keyword table is a specialty of the
fixed enumeration. -/
theorem examTable_mem :
    ∀ p ∈ EXAM_TO_SPECIALTY, p.2 ∈ SPECIALTIES := by decide

/-- C5: `determine_specialty` always returns exactly one value of the
fixed `SPECIALTIES` enumeration, and returns the catch-all `"IA"`
whenever neither the keyword table nor the four keyword-group
fallbacks (brain, ORL, spine, thoracic, in that order) match the
lowercased combined text. -/
theorem claim_C5 :
    ∀ e t : List Char,
    determine_specialty_rad e t ∈ SPECIALTIES.map String.data
    ∧ ((EXAM_TO_SPECIALTY.find? (fun p =>
          strContainsB (pyLowerL (e ++ ' ' :: t)) p.1.data) = none
        ∧ anyKw ["cérébr", "cerveau", "encéphale", "crâne", "crânien",
            "brain", "cerebral"] (pyLowerL (e ++ ' ' :: t)) = false
        ∧ anyKw ["carotide", "sinus", "oro", "facial", "neck"]
            (pyLowerL (e ++ ' ' :: t)) = false
        ∧ anyKw ["rachis", "vertébr", "spine", "cervical", "lombaire"]
            (pyLowerL (e ++ ' ' :: t)) = false
        ∧ anyKw ["thorax", "poumon", "pulmon", "thoracique", "pulmonary"]
            (pyLowerL (e ++ ' ' :: t)) = false) →
        determine_specialty_rad e t = "IA".data) := by
  intro e t
  constructor
  · cases hf : EXAM_TO_SPECIALTY.find? (fun p =>
        strContainsB (pyLowerL (e ++ ' ' :: t)) p.1.data) with
    | some p =>
        have hm := List.mem_of_find?_eq_some hf
        have h2 := examTable_mem p hm
        simp only [determine_specialty_rad, hf]
        exact List.mem_map.2 ⟨p.2, h2, rfl⟩
    | none =>
        simp only [determine_specialty_rad, hf]
        split
        · decide
        · split
          · decide
          · split
            · decide
            · split
              · decide
              · decide
  · rintro ⟨h0, h1, h2, h3, h4⟩
    simp only [determine_specialty_rad, h0, h1, h2, h3, h4,
      Bool.false_eq_true, if_false]

/-- C10: the two duplicated implementations of patient-information
extraction (in `main.py` and `radiology_extractor.py`) are
extensionally equal: on every input text they return the same
dictionary, with the same keys and the same values. -/
theorem claim_C10 :
    ∀ t : List Char,
    extract_patient_info_main t = extract_patient_info_rad t := by
  intro t
  rfl

/-- C9: `extract_complete_report` returns its explicit error record,
and `extract_report` returns `None`, exactly when the final extracted
text is empty or shorter than 100 characters; every text of at least
100 characters yields a structured report record. -/
theorem claim_C9 :
    ∀ text filename pdf_path : List Char,
    ((∃ msg, extract_complete_report text filename = Except.error msg) ↔
      (text.isEmpty || text.length < 100) = true)
    ∧ ((extract_report_fromText text pdf_path = none) ↔
      (text.isEmpty || text.length < 100) = true)
    ∧ ((text.isEmpty || text.length < 100) = false →
        (∃ r, extract_complete_report text filename = Except.ok r)
        ∧ (∃ r, extract_report_fromText text pdf_path = some r)) := by
  intro text filename pdf_path
  by_cases h : (text.isEmpty || text.length < 100) = true
  · refine ⟨?_, ?_, ?_⟩
    · simp [extract_complete_report, h]
    · simp [extract_report_fromText, h]
    · intro hfalse
      rw [hfalse] at h
      exact absurd h (by decide)
  · have h' : (text.isEmpty || text.length < 100) = false :=
      Bool.eq_false_iff.2 h
    refine ⟨?_, ?_, ?_⟩
    · simp [extract_complete_report, h']
    · simp [extract_report_fromText, h']
    · intro _
      constructor
      · cases hc : extract_complete_report text filename with
        | error msg =>
            exfalso
            revert hc
            simp [extract_complete_report, h']
        | ok r => exact ⟨r, rfl⟩
      · cases hc : extract_report_fromText text pdf_path with
        | none =>
            exfalso
            revert hc
            simp [extract_report_fromText, h']
        | some r => exact ⟨r, rfl⟩

/-- Witness for C9's implication at a 100-character text. -/
theorem claim_C9_witness :
    ((String.data (String.mk (List.replicate 100 'a'))).isEmpty ||
      (String.data (String.mk (List.replicate 100 'a'))).length < 100)
      = false
    ∧ ((∃ r, extract_complete_report
          (String.data (String.mk (List.replicate 100 'a'))) "upload".data
          = Except.ok r)
      ∧ (∃ r, extract_report_fromText
          (String.data (String.mk (List.replicate 100 'a'))) "f.pdf".data
          = some r)) :=
  ⟨by decide,
   (claim_C9 (String.data (String.mk (List.replicate 100 'a')))
     "upload".data "f.pdf".data).2.2 (by decide)⟩

/-- Updating an existing key leaves the key list unchanged. -/
theorem dset_keys_of_mem {β : Type} (k : String) (v : β) :
    ∀ d : List (String × β), k ∈ d.map Prod.fst →
    (dset d k v).map Prod.fst = d.map Prod.fst := by
  intro d
  induction d with
  | nil => intro h; simp at h
  | cons hd rest ih =>
      intro h
      obtain ⟨k', v'⟩ := hd
      by_cases hk : k' = k
      · simp [dset, hk]
      · have hmem : k ∈ rest.map Prod.fst := by
          simp only [List.map_cons, List.mem_cons] at h
          rcases h with h | h
          · exact absurd h.symm hk
          · exact h
        simp [dset, hk, ih hmem]

/-- A section-loop step preserves the key list. -/
theorem keys_applySection (d : List (String × List Char)) (key : String)
    (pats : List Rx) (t : List Char) (h : key ∈ d.map Prod.fst) :
    (applySection d key pats t).map Prod.fst = d.map Prod.fst := by
  unfold applySection
  cases pats.findSome? (fun p => reSearch p t) with
  | some m => exact dset_keys_of_mem key _ d h
  | none => rfl

/-- A `parse_sections` step preserves the key list. -/
theorem keys_appApply (d : List (String × List Char)) (key : String)
    (pat : Rx) (t : List Char) (h : key ∈ d.map Prod.fst) :
    (appApply d key pat t).map Prod.fst = d.map Prod.fst := by
  unfold appApply
  cases reSearch pat t with
  | some m => exact dset_keys_of_mem key _ d h
  | none => rfl

/-- The five-section loop preserves the initial six keys. -/
theorem keys_sectionLoop (t : List Char) :
    (sectionLoop t).map Prod.fst = sectionsInit.map Prod.fst := by
  unfold sectionLoop
  have e1 := keys_applySection sectionsInit "exam_type"
    [examPat1, examPat2] t (by decide)
  have e2 := keys_applySection _ "indication" [indPat1, indPat2] t
    (by rw [e1]; decide)
  have e3 := keys_applySection _ "technique" [techPat1, techPat2] t
    (by rw [e2, e1]; decide)
  have e4 := keys_applySection _ "description" [descPat1, descPat2] t
    (by rw [e3, e2, e1]; decide)
  have e5 := keys_applySection _ "conclusion" [concPat1, concPat2] t
    (by rw [e4, e3, e2, e1]; decide)
  rw [e5, e4, e3, e2, e1]

/-- C7: the section map always contains every section key, mapped to a
possibly empty string — `exam_type`, `indication`, `technique`,
`description`, `conclusion`, `validated_by` for `extract_sections`
(both files), and `indication`, `technique`, `description`,
`conclusion`, `signataires` for the Streamlit `parse_sections`; no key
is ever absent. -/
theorem claim_C7 :
    ∀ t : List Char,
    (extract_sections_rad t).map Prod.fst =
      ["exam_type", "indication", "technique", "description",
       "conclusion", "validated_by"]
    ∧ (extract_sections_main t).map Prod.fst =
      ["exam_type", "indication", "technique", "description",
       "conclusion", "validated_by"]
    ∧ (parse_sections t).map Prod.fst =
      ["indication", "technique", "description", "conclusion",
       "signataires"] := by
  intro t
  refine ⟨?_, ?_, ?_⟩
  · unfold extract_sections_rad
    rw [dset_keys_of_mem _ _ _ (by rw [keys_sectionLoop]; decide),
      keys_sectionLoop]
    rfl
  · unfold extract_sections_main
    rw [dset_keys_of_mem _ _ _ (by rw [keys_sectionLoop]; decide),
      keys_sectionLoop]
    rfl
  · simp only [parse_sections]
    have e1 := keys_appApply [("indication", []), ("technique", []),
      ("description", []), ("conclusion", []), ("signataires", [])]
      "indication" appIndPat (mlRstrip t) (by decide)
    have e2 := keys_appApply _ "technique" appTechPat (mlRstrip t)
      (by rw [e1]; decide)
    have e3 := keys_appApply _ "description" appDescPat (mlRstrip t)
      (by rw [e2, e1]; decide)
    have e4 := keys_appApply _ "conclusion" appConcPat (mlRstrip t)
      (by rw [e3, e2, e1]; decide)
    rw [dset_keys_of_mem _ _ _ (by rw [e4, e3, e2, e1]; decide),
      e4, e3, e2, e1]
    rfl

/-- Collapsing past a non-space head keeps the head. -/
theorem collapse_cons_nonspace {c : Char} (rest : List Char)
    (h : isPySpace c = false) :
    collapseWs (c :: rest) = c :: collapseWs rest := by
  cases rest with
  | nil => simp [collapseWs, h]
  | cons c2 r => simp [collapseWs, h]

/-- Characters of the collapsed text are spaces-as-blank or original
characters. -/
theorem mem_collapseWs :
    ∀ l : List Char, ∀ c ∈ collapseWs l, c = ' ' ∨ c ∈ l := by
  intro l
  induction l with
  | nil => intro c hc; simp [collapseWs] at hc
  | cons c1 rest ih =>
      cases rest with
      | nil =>
          intro c hc
          simp only [collapseWs, List.mem_singleton] at hc
          by_cases hs : isPySpace c1 = true
          · left; simp [hs] at hc; exact hc
          · right; simp [Bool.eq_false_iff.2 hs] at hc; simp [hc]
      | cons c2 r =>
          intro c hc
          simp only [collapseWs] at hc
          by_cases hb : (isPySpace c1 && isPySpace c2) = true
          · rw [if_pos hb] at hc
            rcases ih c hc with h | h
            · exact Or.inl h
            · exact Or.inr (List.mem_cons_of_mem _ h)
          · rw [if_neg (by simp [hb])] at hc
            rcases List.mem_cons.1 hc with h | h
            · by_cases hs : isPySpace c1 = true
              · left; simpa [hs] using h
              · right; rw [h]; simp [Bool.eq_false_iff.2 hs]
            · rcases ih c h with h' | h'
              · exact Or.inl h'
              · exact Or.inr (List.mem_cons_of_mem _ h')

/-- Every space character of the collapsed text is a blank. -/
theorem spaces_collapseWs :
    ∀ l : List Char, ∀ c ∈ collapseWs l, isPySpace c = true → c = ' ' := by
  intro l
  induction l with
  | nil => intro c hc; simp [collapseWs] at hc
  | cons c1 rest ih =>
      cases rest with
      | nil =>
          intro c hc hs
          simp only [collapseWs, List.mem_singleton] at hc
          by_cases h1 : isPySpace c1 = true
          · simpa [h1] using hc
          · rw [if_neg (by simp [h1])] at hc
            rw [hc] at hs
            exact absurd hs (by simp [h1])
      | cons c2 r =>
          intro c hc hs
          simp only [collapseWs] at hc
          by_cases hb : (isPySpace c1 && isPySpace c2) = true
          · rw [if_pos hb] at hc
            exact ih c hc hs
          · rw [if_neg (by simp [hb])] at hc
            rcases List.mem_cons.1 hc with h | h
            · by_cases h1 : isPySpace c1 = true
              · simpa [h1] using h
              · rw [if_neg (by simp [h1])] at h
                rw [h] at hs
                exact absurd hs (by simp [h1])
            · exact ih c h hs

/-- The non-adjacency relation used below: no two consecutive space
characters. -/
def noAdjSp (a b : Char) : Prop := ¬(isPySpace a = true ∧ isPySpace b = true)

/-- The collapsed text has no two adjacent space characters. -/
theorem chain'_collapseWs :
    ∀ l : List Char, List.Chain' noAdjSp (collapseWs l) := by
  intro l
  induction l with
  | nil => simp [collapseWs]
  | cons c1 rest ih =>
      cases rest with
      | nil => simp [collapseWs]
      | cons c2 r =>
          by_cases hb : (isPySpace c1 && isPySpace c2) = true
          · simpa [collapseWs, hb] using ih
          · have hre : collapseWs (c1 :: c2 :: r) =
                (if isPySpace c1 then ' ' else c1) :: collapseWs (c2 :: r) := by
              simp [collapseWs, hb]
            rw [hre]
            refine List.chain'_cons'.2 ⟨?_, ih⟩
            intro y hy
            by_cases h1 : isPySpace c1 = true
            · have h2 : isPySpace c2 = false := by
                by_cases hx : isPySpace c2 = true
                · exact absurd (by simp [h1, hx]) hb
                · exact Bool.eq_false_iff.2 hx
              rw [collapse_cons_nonspace r h2] at hy
              simp only [List.head?_cons, Option.mem_def,
                Option.some.injEq] at hy
              subst hy
              exact fun hpair => by simp [h2] at hpair
            · have h1' : isPySpace c1 = false := Bool.eq_false_iff.2 h1
              exact fun hpair => absurd hpair.1 (by simp [h1'])

/-- Collapsing is the identity on texts whose spaces are single
blanks. -/
theorem collapse_id :
    ∀ l : List Char, (∀ c ∈ l, isPySpace c = true → c = ' ') →
    List.Chain' noAdjSp l → collapseWs l = l := by
  intro l
  induction l with
  | nil => intro _ _; rfl
  | cons c1 rest ih =>
      intro hsp hch
      cases rest with
      | nil =>
          by_cases h1 : isPySpace c1 = true
          · have := hsp c1 (by simp) h1
            simp [collapseWs, h1, this]
          · simp [collapseWs, Bool.eq_false_iff.2 h1]
      | cons c2 r =>
          have hadj : noAdjSp c1 c2 :=
            (List.chain'_cons.1 hch).1
          have hb : (isPySpace c1 && isPySpace c2) = false := by
            by_cases h1 : isPySpace c1 = true
            · by_cases h2 : isPySpace c2 = true
              · exact absurd ⟨h1, h2⟩ hadj
              · simp [Bool.eq_false_iff.2 h2]
            · simp [Bool.eq_false_iff.2 h1]
          have hrest := ih (fun c hc hs => hsp c (List.mem_cons_of_mem _ hc) hs)
            (List.chain'_cons.1 hch).2
          by_cases h1 : isPySpace c1 = true
          · have hc1 := hsp c1 (by simp) h1
            have h2 : isPySpace c2 = false := by
              by_cases hx : isPySpace c2 = true
              · rw [h1, hx] at hb; simp at hb
              · exact Bool.eq_false_iff.2 hx
            simp [collapseWs, h1, h2, hc1, hrest]
          · simp [collapseWs, Bool.eq_false_iff.2 h1, hrest]

/-- The stripped text lies contiguously inside the original text. -/
theorem pyStrip_within (l : List Char) : pyStrip l <:+: l := by
  unfold pyStrip
  have h1 : (l.dropWhile (fun c => isPySpace c)) <:+ l :=
    List.dropWhile_suffix _
  have h2 :
      ((l.dropWhile (fun c => isPySpace c)).reverse.dropWhile
        (fun c => isPySpace c)) <:+
      (l.dropWhile (fun c => isPySpace c)).reverse :=
    List.dropWhile_suffix _
  have h3 :
      ((l.dropWhile (fun c => isPySpace c)).reverse.dropWhile
        (fun c => isPySpace c)).reverse <+:
      (l.dropWhile (fun c => isPySpace c)) := by
    rw [← List.reverse_suffix]
    simpa using h2
  exact h3.isInfix.trans h1.isInfix

/-- The head of a `dropWhile` does not satisfy the predicate. -/
theorem head?_dropWhile {p : Char → Bool} :
    ∀ l : List Char, ∀ c, (l.dropWhile p).head? = some c → p c = false := by
  intro l
  induction l with
  | nil => intro c hc; simp at hc
  | cons hd tl ih =>
      intro c hc
      by_cases hp : p hd = true
      · rw [List.dropWhile_cons_of_pos hp] at hc
        exact ih c hc
      · rw [List.dropWhile_cons_of_neg hp] at hc
        simp only [List.head?_cons, Option.some.injEq] at hc
        rw [← hc]
        exact Bool.eq_false_iff.2 hp

/-- A non-empty `dropWhile` keeps the last element. -/
theorem getLast?_dropWhile {p : Char → Bool} :
    ∀ l : List Char, l.dropWhile p ≠ [] →
    (l.dropWhile p).getLast? = l.getLast? := by
  intro l
  induction l with
  | nil => intro h; simp at h
  | cons hd tl ih =>
      intro h
      by_cases hp : p hd = true
      · rw [List.dropWhile_cons_of_pos hp] at h ⊢
        rw [ih h]
        have htl : tl ≠ [] := by
          intro he
          rw [he] at h
          simp at h
        cases tl with
        | nil => exact absurd rfl htl
        | cons a b => rw [List.getLast?_cons_cons]
      · rw [List.dropWhile_cons_of_neg hp]

/-- The stripped text does not start with a space. -/
theorem pyStrip_head (l : List Char) :
    ∀ c, (pyStrip l).head? = some c → isPySpace c = false := by
  intro c hc
  unfold pyStrip at hc
  rw [List.head?_reverse] at hc
  have hne : ((l.dropWhile (fun c => isPySpace c)).reverse.dropWhile
      (fun c => isPySpace c)) ≠ [] := by
    intro he
    rw [he] at hc
    simp at hc
  rw [getLast?_dropWhile _ hne, List.getLast?_reverse] at hc
  exact head?_dropWhile l c hc

/-- The stripped text does not end with a space. -/
theorem pyStrip_getLast (l : List Char) :
    ∀ c, (pyStrip l).getLast? = some c → isPySpace c = false := by
  intro c hc
  unfold pyStrip at hc
  rw [List.getLast?_reverse] at hc
  exact head?_dropWhile _ c hc

/-- Stripping is the identity when the ends are not spaces. -/
theorem pyStrip_id (l : List Char)
    (h1 : ∀ c, l.head? = some c → isPySpace c = false)
    (h2 : ∀ c, l.getLast? = some c → isPySpace c = false) :
    pyStrip l = l := by
  unfold pyStrip
  have e1 : l.dropWhile (fun c => isPySpace c) = l := by
    cases hl : l with
    | nil => rfl
    | cons hd tl =>
        have := h1 hd (by rw [hl]; rfl)
        rw [List.dropWhile_cons_of_neg (by simp [this])]
  rw [e1]
  have e2 : l.reverse.dropWhile (fun c => isPySpace c) = l.reverse := by
    cases hr : l.reverse with
    | nil => rfl
    | cons hd tl =>
        have hh : l.getLast? = some hd := by
          rw [← List.head?_reverse, hr]; rfl
        have := h2 hd hh
        rw [List.dropWhile_cons_of_neg (by simp [this])]
  rw [e2, List.reverse_reverse]

/-- Mapping the control cleanup over a control-free text is the
identity. -/
theorem ctlMap_id :
    ∀ l : List Char, (∀ c ∈ l, isCleanCtl c = false) →
    l.map (fun c => if isCleanCtl c then ' ' else c) = l := by
  intro l
  induction l with
  | nil => intro _; rfl
  | cons hd tl ih =>
      intro h
      have hhd := h hd (by simp)
      simp only [List.map_cons, hhd, Bool.false_eq_true, if_false,
        List.cons.injEq, true_and]
      exact ih (fun c hc => h c (List.mem_cons_of_mem _ hc))

/-- Characters of the cleaned text are control-free. -/
theorem clean_noCtl (l : List Char) :
    ∀ c ∈ clean_text l, isCleanCtl c = false := by
  intro c hc
  unfold clean_text at hc
  have hc2 := (pyStrip_within _).subset hc
  rcases mem_collapseWs _ c hc2 with h | h
  · rw [h]; decide
  · rcases List.mem_map.1 h with ⟨c0, _, he⟩
    by_cases hcc : isCleanCtl c0 = true
    · have hsp : c = ' ' := by rw [← he]; simp [hcc]
      rw [hsp]; decide
    · have hf := Bool.eq_false_iff.2 hcc
      have hcc0 : c = c0 := by rw [← he]; simp [hf]
      rw [hcc0]; exact hf

/-- Space characters of the cleaned text are single blanks. -/
theorem clean_spaces (l : List Char) :
    ∀ c ∈ clean_text l, isPySpace c = true → c = ' ' := by
  intro c hc hs
  unfold clean_text at hc
  have hc2 := (pyStrip_within _).subset hc
  exact spaces_collapseWs _ c hc2 hs

/-- The cleaned text has no two adjacent spaces. -/
theorem clean_chain (l : List Char) :
    List.Chain' noAdjSp (clean_text l) := by
  unfold clean_text
  exact List.Chain'.infix (chain'_collapseWs _) (pyStrip_within _)

/-- C8 core: `clean_text` is idempotent. -/
theorem clean_text_idem (l : List Char) :
    clean_text (clean_text l) = clean_text l := by
  have hhead : ∀ c, (clean_text l).head? = some c → isPySpace c = false := by
    intro c hc
    unfold clean_text at hc
    exact pyStrip_head _ c hc
  have hlast : ∀ c, (clean_text l).getLast? = some c →
      isPySpace c = false := by
    intro c hc
    unfold clean_text at hc
    exact pyStrip_getLast _ c hc
  calc clean_text (clean_text l)
      = pyStrip (collapseWs ((clean_text l).map
          (fun c => if isCleanCtl c then ' ' else c))) := rfl
    _ = pyStrip (collapseWs (clean_text l)) := by
          rw [ctlMap_id _ (clean_noCtl l)]
    _ = pyStrip (clean_text l) := by
          rw [collapse_id _ (clean_spaces l) (clean_chain l)]
    _ = clean_text l := pyStrip_id _ hhead hlast

/-- C8: section capture is idempotent over cleaning — cleaning an
already-cleaned text changes nothing, so the splitter applied after
one or two cleanings yields the identical section map, and on any
fixed point of the cleaner a second cleaning changes no section. -/
theorem claim_C8 :
    ∀ t : List Char,
    clean_text (clean_text t) = clean_text t
    ∧ extract_sections_rad (clean_text (clean_text t)) =
        extract_sections_rad (clean_text t)
    ∧ (clean_text t = t →
        extract_sections_rad (clean_text t) = extract_sections_rad t) := by
  intro t
  refine ⟨clean_text_idem t, ?_, ?_⟩
  · rw [clean_text_idem t]
  · intro h
    rw [h]

/-- Witness for C8's fixed-point conjunct at a concrete clean text. -/
theorem claim_C8_witness :
    clean_text "abc".data = "abc".data
    ∧ extract_sections_rad (clean_text "abc".data) =
        extract_sections_rad "abc".data :=
  ⟨by decide, (claim_C8 "abc".data).2.2 (by decide)⟩

/-- C6: the primary patterns are tried in fixed order from most to
least specific and the first match wins — the later patterns never
contribute once an earlier one matches — while the identifier fallback
list is consulted exactly when no primary pattern captured a patient
identifier (i.e. when only the three-group pattern, or nothing,
matched).  Stated as an unconditional unrolling of
`extract_patient_info`. -/
theorem claim_C6 :
    ∀ t : List Char,
    extract_patient_info_rad t =
      (match reSearch patPat1 t with
       | some m =>
           [("patient_name", PVal.s (pyStrip (capGetD m 1))),
            ("patient_dob", PVal.s (capGetD m 2)),
            ("patient_age", PVal.i (Int.ofNat (pyIntNat (capGetD m 3)))),
            ("patient_identifier", PVal.s (capGetD m 4)),
            ("exam_identifier", PVal.s (capGetD m 5))]
       | none =>
         match reSearch patPat2 t with
         | some m =>
             [("patient_name", PVal.s (pyStrip (capGetD m 1))),
              ("patient_dob", PVal.s (capGetD m 2)),
              ("patient_age", PVal.i (Int.ofNat (pyIntNat (capGetD m 3)))),
              ("patient_identifier", PVal.s (capGetD m 4))]
         | none =>
           match reSearch patPat3 t with
           | some m =>
               (match idFallback [idPat1, idPat2, idPat3] t with
                | some v =>
                    [("patient_name", PVal.s (pyStrip (capGetD m 1))),
                     ("patient_dob", PVal.s (capGetD m 2)),
                     ("patient_age",
                       PVal.i (Int.ofNat (pyIntNat (capGetD m 3)))),
                     ("patient_identifier", PVal.s v)]
                | none =>
                    [("patient_name", PVal.s (pyStrip (capGetD m 1))),
                     ("patient_dob", PVal.s (capGetD m 2)),
                     ("patient_age",
                       PVal.i (Int.ofNat (pyIntNat (capGetD m 3))))])
           | none =>
               (match idFallback [idPat1, idPat2, idPat3] t with
                | some v => [("patient_identifier", PVal.s v)]
                | none => [])) := by
  intro t
  cases h1 : reSearch patPat1 t with
  | some m =>
      simp only [extract_patient_info_rad, primaryLoop, h1]
      rfl
  | none =>
      cases h2 : reSearch patPat2 t with
      | some m =>
          simp only [extract_patient_info_rad, primaryLoop, h1, h2]
          rfl
      | none =>
          cases h3 : reSearch patPat3 t with
          | some m =>
              simp only [extract_patient_info_rad, primaryLoop, h1, h2, h3]
              cases hf : idFallback [idPat1, idPat2, idPat3] t with
              | some v => rfl
              | none => rfl
          | none =>
              simp only [extract_patient_info_rad, primaryLoop, h1, h2, h3]
              cases hf : idFallback [idPat1, idPat2, idPat3] t with
              | some v => rfl
              | none => rfl

/-- Case-insensitive prefix test (the way a literal-headed pattern
consumes the input). -/
def ciPfx : List Char → List Char → Bool
  | [], _ => true
  | _ :: _, [] => false
  | k :: ks, x :: xs => ciEq k x && ciPfx ks xs

/-- Case-insensitive occurrence of a keyword anywhere in a text. -/
def containsCI (kw : List Char) : List Char → Bool
  | [] => ciPfx kw []
  | x :: rest => ciPfx kw (x :: rest) || containsCI kw rest

/-- A literal-headed pattern cannot match where its literal is not a
(case-insensitive) prefix. -/
theorem mAll_strCI_nil (s : String) :
    ∀ (xs : List Char) (prev : Option Char), ciPfx s.data xs = false →
    mAll (rxStrCI s) prev xs = [] := by
  have key : ∀ (kw : List Char) (xs : List Char) (prev : Option Char),
      ciPfx kw xs = false →
      mAll (rxSeq (kw.map (fun c => Rx.chr (fun x => ciEq c x)))) prev xs
        = [] := by
    intro kw
    induction kw with
    | nil => intro xs prev h; simp [ciPfx] at h
    | cons k ks ih =>
        intro xs prev h
        cases xs with
        | nil =>
            simp [rxSeq, mAll]
        | cons x xs' =>
            simp only [ciPfx, Bool.and_eq_false_iff] at h
            simp only [List.map_cons, rxSeq, List.foldr_cons, mAll]
            rcases h with h | h
            · simp [h]
            · by_cases he : ciEq k x = true
              · simp only [he, if_true]
                have := ih xs' (lastCtx prev [x]) h
                simp only [rxSeq] at this
                simp [this]
              · simp [Bool.eq_false_iff.2 he]
  intro xs prev h
  exact key s.data xs prev h

/-- A pattern whose head fails has no matches. -/
theorem mAll_cat_nil {a b : Rx} {prev : Option Char} {xs : List Char}
    (h : mAll a prev xs = []) : mAll (Rx.cat a b) prev xs = [] := by
  simp [mAll, h]

/-- Searching for a literal-headed pattern over a text without the
literal fails. -/
theorem reSearch_strCI_none (s : String) (rest : Rx) :
    ∀ (xs : List Char) (prev : Option Char), containsCI s.data xs = false →
    reSearchAux (Rx.cat (rxStrCI s) rest) prev xs = none := by
  intro xs
  induction xs with
  | nil =>
      intro prev h
      simp only [containsCI] at h
      simp [reSearchAux, mAll_cat_nil (mAll_strCI_nil s [] prev h)]
  | cons x xs' ih =>
      intro prev h
      simp only [containsCI, Bool.or_eq_false_iff] at h
      obtain ⟨h1, h2⟩ := h
      simp only [reSearchAux,
        mAll_cat_nil (mAll_strCI_nil s (x :: xs') prev h1), List.head?]
      exact ih (some x) h2

/-- Absence of every recognised section-header keyword. -/
abbrev headerFree (t : List Char) : Prop :=
  containsCI "Examen(s)".data t = false
  ∧ containsCI "Indication".data t = false
  ∧ containsCI "Technique".data t = false
  ∧ containsCI "Description".data t = false
  ∧ containsCI "Conclusion".data t = false

/-- With no header present, the five-section loop leaves the
dictionary untouched. -/
theorem sectionLoop_headerFree (t : List Char) (h : headerFree t) :
    sectionLoop t = sectionsInit := by
  obtain ⟨h1, h2, h3, h4, h5⟩ := h
  have e1 : reSearch examPat1 t = none :=
    reSearch_strCI_none "Examen(s)" _ t none h1
  have e2 : reSearch examPat2 t = none :=
    reSearch_strCI_none "Examen(s)" _ t none h1
  have i1 : reSearch indPat1 t = none :=
    reSearch_strCI_none "Indication" _ t none h2
  have i2 : reSearch indPat2 t = none :=
    reSearch_strCI_none "Indication" _ t none h2
  have t1 : reSearch techPat1 t = none :=
    reSearch_strCI_none "Technique" _ t none h3
  have t2 : reSearch techPat2 t = none :=
    reSearch_strCI_none "Technique" _ t none h3
  have d1 : reSearch descPat1 t = none :=
    reSearch_strCI_none "Description" _ t none h4
  have d2 : reSearch descPat2 t = none :=
    reSearch_strCI_none "Description" _ t none h4
  have c1 : reSearch concPat1 t = none :=
    reSearch_strCI_none "Conclusion" _ t none h5
  have c2 : reSearch concPat2 t = none :=
    reSearch_strCI_none "Conclusion" _ t none h5
  unfold sectionLoop applySection
  simp [List.findSome?, e1, e2, i1, i2, t1, t2, d1, d2, c1, c2]

/-- C1 (amended): when no recognised section header occurs in the
input, the splitter leaves all five content fields (`exam_type`,
`indication`, `technique`, `description`, `conclusion`) empty — the
text is discarded rather than accumulated into `description`.  Holds
for both files' `extract_sections`. -/
theorem claim_C1_amended (t : List Char) (h : headerFree t) :
    dget (extract_sections_rad t) "exam_type" = some []
    ∧ dget (extract_sections_rad t) "indication" = some []
    ∧ dget (extract_sections_rad t) "technique" = some []
    ∧ dget (extract_sections_rad t) "description" = some []
    ∧ dget (extract_sections_rad t) "conclusion" = some []
    ∧ dget (extract_sections_main t) "exam_type" = some []
    ∧ dget (extract_sections_main t) "indication" = some []
    ∧ dget (extract_sections_main t) "technique" = some []
    ∧ dget (extract_sections_main t) "description" = some []
    ∧ dget (extract_sections_main t) "conclusion" = some [] := by
  have hloop := sectionLoop_headerFree t h
  unfold extract_sections_rad extract_sections_main
  rw [hloop]
  refine ⟨rfl, rfl, rfl, rfl, rfl, rfl, rfl, rfl, rfl, rfl⟩

/-- Witness for the amended C1 at a concrete header-free text. -/
theorem claim_C1_witness :
    headerFree "zzz".data
    ∧ (dget (extract_sections_rad "zzz".data) "exam_type" = some []
    ∧ dget (extract_sections_rad "zzz".data) "indication" = some []
    ∧ dget (extract_sections_rad "zzz".data) "technique" = some []
    ∧ dget (extract_sections_rad "zzz".data) "description" = some []
    ∧ dget (extract_sections_rad "zzz".data) "conclusion" = some []
    ∧ dget (extract_sections_main "zzz".data) "exam_type" = some []
    ∧ dget (extract_sections_main "zzz".data) "indication" = some []
    ∧ dget (extract_sections_main "zzz".data) "technique" = some []
    ∧ dget (extract_sections_main "zzz".data) "description" = some []
    ∧ dget (extract_sections_main "zzz".data) "conclusion" = some []) :=
  ⟨by decide, claim_C1_amended "zzz".data (by decide)⟩

/-- C1 counterexample: `"bonjour"` contains no recognised section
header, yet the splitter leaves `description` empty instead of
assigning the text to it — the original claim fails. -/
theorem claim_C1_counterexample :
    headerFree "bonjour".data
    ∧ dget (extract_sections_rad "bonjour".data) "description" = some []
    ∧ dget (extract_sections_main "bonjour".data) "description" = some []
    ∧ ¬(([] : List Char) = "bonjour".data) :=
  ⟨by decide, by decide, by decide, by decide⟩

/-- Whether a pattern contains no capture group. -/
def grpFree : Rx → Bool
  | .eps => true
  | .chr _ => true
  | .cat a b => grpFree a && grpFree b
  | .alt a b => grpFree a && grpFree b
  | .starG a => grpFree a
  | .starL a => grpFree a
  | .look a => grpFree a
  | .grp _ _ => false
  | .eosAnchor => true
  | .wordB => true

/-- A repetition over a capture-free body produces no captures. -/
theorem starRunG_caps (step : Option Char → List Char → List MRes)
    (hstep : ∀ prev xs r, r ∈ step prev xs → r.caps = []) :
    ∀ (fuel : Nat) (prev : Option Char) (xs : List Char) (r : MRes),
    r ∈ starRunG step fuel prev xs → r.caps = [] := by
  intro fuel
  induction fuel with
  | zero => intro prev xs r hr; simp [starRunG] at hr; simp [hr]
  | succ n ih =>
      intro prev xs r hr
      simp only [starRunG, List.mem_append, List.mem_flatMap,
        List.mem_map, List.mem_filter, List.mem_singleton] at hr
      rcases hr with ⟨r1, ⟨hr1, _⟩, s, hs, he⟩ | he
      · rw [← he]
        simp [mCat, hstep prev xs r1 hr1, ih _ _ s hs]
      · simp [he]

/-- Lazy version of `starRunG_caps`. -/
theorem starRunL_caps (step : Option Char → List Char → List MRes)
    (hstep : ∀ prev xs r, r ∈ step prev xs → r.caps = []) :
    ∀ (fuel : Nat) (prev : Option Char) (xs : List Char) (r : MRes),
    r ∈ starRunL step fuel prev xs → r.caps = [] := by
  intro fuel
  induction fuel with
  | zero => intro prev xs r hr; simp [starRunL] at hr; simp [hr]
  | succ n ih =>
      intro prev xs r hr
      simp only [starRunL, List.mem_cons, List.mem_flatMap,
        List.mem_map, List.mem_filter] at hr
      rcases hr with he | ⟨r1, ⟨hr1, _⟩, s, hs, he⟩
      · simp [he]
      · rw [← he]
        simp [mCat, hstep prev xs r1 hr1, ih _ _ s hs]

/-- Matches of a capture-free pattern carry no captures. -/
theorem grpFree_caps :
    ∀ (p : Rx), grpFree p = true →
    ∀ (prev : Option Char) (xs : List Char) (r : MRes),
    r ∈ mAll p prev xs → r.caps = [] := by
  intro p
  induction p with
  | eps => intro _ prev xs r hr; simp [mAll] at hr; simp [hr]
  | chr cl =>
      intro _ prev xs r hr
      cases xs with
      | nil => simp [mAll] at hr
      | cons x rest =>
          simp only [mAll] at hr
          by_cases hx : cl x = true
          · simp [hx] at hr; simp [hr]
          · simp [Bool.eq_false_iff.2 hx] at hr
  | cat a b iha ihb =>
      intro hf prev xs r hr
      simp only [grpFree, Bool.and_eq_true] at hf
      simp only [mAll, List.mem_flatMap, List.mem_map] at hr
      rcases hr with ⟨r1, hr1, s, hs, he⟩
      rw [← he]
      simp [mCat, iha hf.1 prev xs r1 hr1, ihb hf.2 _ _ s hs]
  | alt a b iha ihb =>
      intro hf prev xs r hr
      simp only [grpFree, Bool.and_eq_true] at hf
      simp only [mAll, List.mem_append] at hr
      rcases hr with hr | hr
      · exact iha hf.1 prev xs r hr
      · exact ihb hf.2 prev xs r hr
  | starG a iha =>
      intro hf prev xs r hr
      simp only [grpFree] at hf
      exact starRunG_caps (mAll a) (fun p' x' r' h' => iha hf p' x' r' h')
        _ prev xs r hr
  | starL a iha =>
      intro hf prev xs r hr
      simp only [grpFree] at hf
      exact starRunL_caps (mAll a) (fun p' x' r' h' => iha hf p' x' r' h')
        _ prev xs r hr
  | look a iha =>
      intro hf prev xs r hr
      simp only [grpFree] at hf
      simp only [mAll] at hr
      cases hm : mAll a prev xs with
      | nil => rw [hm] at hr; simp at hr
      | cons r0 rest =>
          rw [hm] at hr
          simp only [List.mem_singleton] at hr
          have : r0 ∈ mAll a prev xs := by rw [hm]; simp
          rw [hr]
          exact iha hf prev xs r0 this
  | grp n a iha => intro hf; simp [grpFree] at hf
  | eosAnchor =>
      intro _ prev xs r hr
      simp only [mAll] at hr
      split at hr
      · simp at hr; simp [hr]
      · simp at hr; simp [hr]
      · simp at hr
  | wordB =>
      intro _ prev xs r hr
      simp only [mAll] at hr
      split at hr
      · simp at hr; simp [hr]
      · simp at hr

/-- Inversion for single-character matches. -/
theorem chr_mem {p : Char → Bool} {prev : Option Char} {xs : List Char}
    {r : MRes} (hr : r ∈ mAll (Rx.chr p) prev xs) :
    ∃ x xs', xs = x :: xs' ∧ p x = true ∧ r = ⟨[x], xs', []⟩ := by
  cases xs with
  | nil => simp [mAll] at hr
  | cons x xs' =>
      simp only [mAll] at hr
      by_cases hx : p x = true
      · rw [if_pos hx] at hr
        simp only [List.mem_singleton] at hr
        exact ⟨x, xs', rfl, hx, hr⟩
      · rw [if_neg (by simp [hx])] at hr
        simp at hr

/-- Inversion for `eps`. -/
theorem eps_mem {prev : Option Char} {xs : List Char} {r : MRes}
    (hr : r ∈ mAll Rx.eps prev xs) : r = ⟨[], xs, []⟩ := by
  simpa [mAll] using hr

/-- Inversion for concatenation. -/
theorem cat_mem {a b : Rx} {prev : Option Char} {xs : List Char} {r : MRes}
    (hr : r ∈ mAll (Rx.cat a b) prev xs) :
    ∃ r1, r1 ∈ mAll a prev xs ∧
      ∃ r2, r2 ∈ mAll b (lastCtx prev r1.consumed) r1.rem ∧ r = mCat r1 r2 := by
  simp only [mAll, List.mem_flatMap, List.mem_map] at hr
  rcases hr with ⟨r1, hr1, r2, hr2, he⟩
  exact ⟨r1, hr1, r2, hr2, he.symm⟩

/-- Inversion for a greedy optional single character. -/
theorem optG_chr_mem {p : Char → Bool} {prev : Option Char} {xs : List Char}
    {r : MRes} (hr : r ∈ mAll (rxOptG (Rx.chr p)) prev xs) :
    (∃ x xs', xs = x :: xs' ∧ p x = true ∧ r = ⟨[x], xs', []⟩)
    ∨ r = ⟨[], xs, []⟩ := by
  have hre : mAll (rxOptG (Rx.chr p)) prev xs =
      mAll (Rx.chr p) prev xs ++ mAll Rx.eps prev xs := rfl
  rw [hre, List.mem_append] at hr
  rcases hr with hr | hr
  · exact Or.inl (chr_mem hr)
  · exact Or.inr (eps_mem hr)

/-- Shape of a `\d{1,2}` match: one or two digits. -/
theorem dTok_shape {prev : Option Char} {xs : List Char} {r : MRes}
    (hr : r ∈ mAll dTok prev xs) :
    (∀ c ∈ r.consumed, isD c = true) ∧
    (r.consumed.length = 1 ∨ r.consumed.length = 2) := by
  rcases cat_mem hr with ⟨r1, hr1, r2, hr2, he⟩
  rcases chr_mem hr1 with ⟨x, xs', _, hx, he1⟩
  rcases optG_chr_mem hr2 with ⟨x2, xs'', _, hx2, he2⟩ | he2
  · subst he; subst he1; subst he2
    refine ⟨?_, Or.inr rfl⟩
    intro c hc
    simp only [mCat, List.cons_append, List.nil_append,
      List.mem_cons, List.mem_singleton] at hc
    rcases hc with h | h | h
    · rw [h]; exact hx
    · rw [h]; exact hx2
    · simp at h
  · subst he; subst he1; subst he2
    refine ⟨?_, Or.inl rfl⟩
    intro c hc
    simp only [mCat, List.append_nil, List.mem_singleton] at hc
    rw [hc]; exact hx

/-- Shape of a `\d{4}` match: exactly four digits. -/
theorem dFour_shape {prev : Option Char} {xs : List Char} {r : MRes}
    (hr : r ∈ mAll dFour prev xs) :
    (∀ c ∈ r.consumed, isD c = true) ∧ r.consumed.length = 4 := by
  simp only [dFour, rxSeq, List.foldr_cons, List.foldr_nil] at hr
  rcases cat_mem hr with ⟨r1, hr1, rr, hrr, he⟩
  rcases cat_mem hrr with ⟨r2, hr2, rr2, hrr2, he2⟩
  rcases cat_mem hrr2 with ⟨r3, hr3, rr3, hrr3, he3⟩
  rcases cat_mem hrr3 with ⟨r4, hr4, rr4, hrr4, he4⟩
  rcases chr_mem hr1 with ⟨x1, _, _, hx1, hee1⟩
  rcases chr_mem hr2 with ⟨x2, _, _, hx2, hee2⟩
  rcases chr_mem hr3 with ⟨x3, _, _, hx3, hee3⟩
  rcases chr_mem hr4 with ⟨x4, _, _, hx4, hee4⟩
  have hee5 := eps_mem hrr4
  subst he; subst he2; subst he3; subst he4
  subst hee1; subst hee2; subst hee3; subst hee4; subst hee5
  constructor
  · intro c hc
    simp only [mCat, List.cons_append, List.nil_append, List.append_nil,
      List.mem_cons, List.mem_singleton] at hc
    rcases hc with h | h | h | h | h
    · rw [h]; exact hx1
    · rw [h]; exact hx2
    · rw [h]; exact hx3
    · rw [h]; exact hx4
    · simp at h
  · simp [mCat]

/-- The shape of any `dateCore` match: one-or-two digits, separator,
one-or-two digits, separator, four digits. -/
def dateShape (l : List Char) : Prop :=
  ∃ d s1 m s2 y, l = d ++ s1 :: (m ++ s2 :: y)
    ∧ (d.length = 1 ∨ d.length = 2)
    ∧ (∀ c ∈ d, isD c = true)
    ∧ (∀ c ∈ m, isD c = true)
    ∧ (∀ c ∈ y, isD c = true)
    ∧ y.length = 4
    ∧ isDateSep s1 = true ∧ isDateSep s2 = true

/-- Every match of the date core has the date shape. -/
theorem dateCore_shape {prev : Option Char} {xs : List Char} {r : MRes}
    (hr : r ∈ mAll dateCore prev xs) : dateShape r.consumed := by
  simp only [dateCore, rxSeq, List.foldr_cons, List.foldr_nil] at hr
  rcases cat_mem hr with ⟨rd, hrd, rr, hrr, he⟩
  rcases cat_mem hrr with ⟨rs1, hrs1, rr2, hrr2, he2⟩
  rcases cat_mem hrr2 with ⟨rm, hrm, rr3, hrr3, he3⟩
  rcases cat_mem hrr3 with ⟨rs2, hrs2, rr4, hrr4, he4⟩
  rcases cat_mem hrr4 with ⟨ry, hry, rr5, hrr5, he5⟩
  have hd := dTok_shape hrd
  have hm := dTok_shape hrm
  have hy := dFour_shape hry
  rcases chr_mem hrs1 with ⟨c1, _, _, hc1, hes1⟩
  rcases chr_mem hrs2 with ⟨c2, _, _, hc2, hes2⟩
  have hee := eps_mem hrr5
  subst he; subst he2; subst he3; subst he4; subst he5
  subst hes1; subst hes2; subst hee
  refine ⟨rd.consumed, c1, rm.consumed, c2, ry.consumed, ?_, hd.2, hd.1,
    hm.1, hy.1, hy.2, hc1, hc2⟩
  simp [mCat]

/-- A digit is not a date separator. -/
theorem digit_not_sep {c : Char} (h : isD c = true) : isDateSep c = false := by
  cases hs : isDateSep c with
  | false => rfl
  | true =>
      exfalso
      simp only [isDateSep, Bool.or_eq_true, decide_eq_true_eq] at hs
      rcases hs with (h1 | h1) | h1 <;> (subst h1; simp [isD] at h)

/-- `pySplit` never returns the empty list. -/
theorem pySplit_ne_nil (sep : Char) : ∀ l : List Char, pySplit sep l ≠ [] := by
  intro l
  induction l with
  | nil => simp [pySplit]
  | cons c rest ih =>
      simp only [pySplit]
      cases hq : pySplit sep rest with
      | nil => exact absurd hq ih
      | cons g gs =>
          by_cases hc : c = sep
          · simp [hc]
          · simp [hc]

/-- Splitting a separator-free token yields the token alone. -/
theorem pySplit_token (sep : Char) :
    ∀ l : List Char, (∀ c ∈ l, ¬(c = sep)) → pySplit sep l = [l] := by
  intro l
  induction l with
  | nil => intro _; rfl
  | cons c rest ih =>
      intro h
      have hc := h c (by simp)
      simp only [pySplit, ih (fun x hx => h x (List.mem_cons_of_mem _ hx))]
      simp [hc]

/-- Splitting past a separator-free token. -/
theorem pySplit_append (sep : Char) :
    ∀ (a b : List Char), (∀ c ∈ a, ¬(c = sep)) →
    pySplit sep (a ++ sep :: b) = a :: pySplit sep b := by
  intro a
  induction a with
  | nil =>
      intro b _
      simp only [List.nil_append, pySplit]
      cases hq : pySplit sep b with
      | nil => exact absurd hq (pySplit_ne_nil sep b)
      | cons g gs => simp
  | cons c rest ih =>
      intro b h
      have hc := h c (by simp)
      rw [List.cons_append]
      show (match pySplit sep (rest ++ sep :: b) with
            | [] => [[]]
            | g :: gs => if c = sep then [] :: g :: gs else (c :: g) :: gs)
          = (c :: rest) :: pySplit sep b
      rw [ih b (fun x hx => h x (List.mem_cons_of_mem _ hx))]
      simp [hc]

/-- With the date shape, the year token has four digits, the day token
at most two, so the swap branch cannot fire: the per-match parser and
its no-swap variant agree. -/
theorem tryParse_eq_of_shape {l : List Char} (h : dateShape l) :
    tryParseDate l = tryParseDateNoswap l := by
  obtain ⟨d, s1, m, s2, y, he, hdl, hd, hm, hy, hyl, hs1, hs2⟩ := h
  have hmapd : ∀ c ∈ d, (if isDateSep c then '/' else c) = c := by
    intro c hc
    simp [digit_not_sep (hd c hc)]
  have hmapm : ∀ c ∈ m, (if isDateSep c then '/' else c) = c := by
    intro c hc
    simp [digit_not_sep (hm c hc)]
  have hmapy : ∀ c ∈ y, (if isDateSep c then '/' else c) = c := by
    intro c hc
    simp [digit_not_sep (hy c hc)]
  have hmap : l.map (fun c => if isDateSep c then '/' else c) =
      d ++ '/' :: (m ++ '/' :: y) := by
    subst he
    simp only [List.map_append, List.map_cons, hs1, hs2, if_true,
      List.map_congr_left hmapd, List.map_congr_left hmapm,
      List.map_congr_left hmapy, List.map_id']
  have hnotd : ∀ c ∈ d, ¬(c = '/') := by
    intro c hc he2
    have := hd c hc
    rw [he2] at this
    simp [isD] at this
  have hnotm : ∀ c ∈ m, ¬(c = '/') := by
    intro c hc he2
    have := hm c hc
    rw [he2] at this
    simp [isD] at this
  have hnoty : ∀ c ∈ y, ¬(c = '/') := by
    intro c hc he2
    have := hy c hc
    rw [he2] at this
    simp [isD] at this
  have hsplit : pySplit '/' (l.map (fun c => if isDateSep c then '/' else c))
      = [d, m, y] := by
    rw [hmap, pySplit_append '/' d (m ++ '/' :: y) hnotd,
      pySplit_append '/' m y hnotm, pySplit_token '/' y hnoty]
  have hd4 : ¬(d.length = 4) := by
    rcases hdl with h1 | h1 <;> (rw [h1]; omega)
  simp only [tryParseDate, tryParseDateNoswap, hsplit]
  simp [hyl, hd4]

/-- Captures pass through a capture-free head. -/
theorem caps_through {a b : Rx} (ha : grpFree a = true) {prev : Option Char}
    {xs : List Char} {r : MRes} (hr : r ∈ mAll (Rx.cat a b) prev xs) :
    ∃ prev' xs' r2, r2 ∈ mAll b prev' xs' ∧ r.caps = r2.caps := by
  rcases cat_mem hr with ⟨r1, hr1, r2, hr2, he⟩
  subst he
  exact ⟨_, _, r2, hr2, by
    simp [mCat, grpFree_caps a ha prev xs r1 hr1]⟩

/-- A match of the captured date core carries exactly the date
capture. -/
theorem grpDate_caps {prev : Option Char} {xs : List Char} {r : MRes}
    (hr : r ∈ mAll (Rx.grp 1 dateCore) prev xs) :
    ∃ c, r.caps = [(1, c)] ∧ dateShape c := by
  have hre : mAll (Rx.grp 1 dateCore) prev xs =
      (mAll dateCore prev xs).map (fun r0 =>
        ⟨r0.consumed, r0.rem, r0.caps ++ [(1, r0.consumed)]⟩) := rfl
  rw [hre, List.mem_map] at hr
  rcases hr with ⟨r0, hr0, he⟩
  have hcaps := grpFree_caps dateCore (by decide) prev xs r0 hr0
  subst he
  exact ⟨r0.consumed, by simp [hcaps], dateCore_shape hr0⟩

/-- Same, with the trailing `eps` of a pattern sequence. -/
theorem grpDateEps_caps {prev : Option Char} {xs : List Char} {r : MRes}
    (hr : r ∈ mAll (Rx.cat (Rx.grp 1 dateCore) Rx.eps) prev xs) :
    ∃ c, r.caps = [(1, c)] ∧ dateShape c := by
  rcases cat_mem hr with ⟨r1, hr1, r2, hr2, he⟩
  have he2 := eps_mem hr2
  subst he; subst he2
  rcases grpDate_caps hr1 with ⟨c, hc, hs⟩
  exact ⟨c, by simp [mCat, hc], hs⟩

/-- The four date patterns capture exactly one group, of date shape. -/
theorem datePats_caps :
    ∀ p ∈ [datePat1, datePat2, datePat3, datePat4],
    ∀ (prev : Option Char) (xs : List Char) (m : MRes),
    m ∈ mAll p prev xs → ∃ c, m.caps = [(1, c)] ∧ dateShape c := by
  intro p hp prev xs m hm
  simp only [List.mem_cons, List.mem_singleton] at hp
  rcases hp with rfl | rfl | rfl | rfl | hfalse
  · have hm0 : m ∈ mAll (Rx.cat (rxStrCI "Examen(s)") (Rx.cat rxSpPlus
        (Rx.cat (rxStrCI "du") (Rx.cat rxSpPlus
          (Rx.cat (Rx.grp 1 dateCore) Rx.eps))))) prev xs := hm
    rcases caps_through (by decide) hm0 with ⟨p1, x1, r1, hr1, hc1⟩
    rcases caps_through (by decide) hr1 with ⟨p2, x2, r2, hr2, hc2⟩
    rcases caps_through (by decide) hr2 with ⟨p3, x3, r3, hr3, hc3⟩
    rcases caps_through (by decide) hr3 with ⟨p4, x4, r4, hr4, hc4⟩
    rcases grpDateEps_caps hr4 with ⟨c, hc, hshape⟩
    exact ⟨c, by rw [hc1, hc2, hc3, hc4, hc], hshape⟩
  · have hm0 : m ∈ mAll (Rx.cat (rxStrCI "le") (Rx.cat rxSpPlus
        (Rx.cat (Rx.grp 1 dateCore) Rx.eps))) prev xs := hm
    rcases caps_through (by decide) hm0 with ⟨p1, x1, r1, hr1, hc1⟩
    rcases caps_through (by decide) hr1 with ⟨p2, x2, r2, hr2, hc2⟩
    rcases grpDateEps_caps hr2 with ⟨c, hc, hshape⟩
    exact ⟨c, by rw [hc1, hc2, hc], hshape⟩
  · have hm0 : m ∈ mAll (Rx.cat (rxStrCI "Neuchâtel,") (Rx.cat rxSpStar
        (Rx.cat (rxStrCI "le") (Rx.cat rxSpStar
          (Rx.cat (Rx.grp 1 dateCore) Rx.eps))))) prev xs := hm
    rcases caps_through (by decide) hm0 with ⟨p1, x1, r1, hr1, hc1⟩
    rcases caps_through (by decide) hr1 with ⟨p2, x2, r2, hr2, hc2⟩
    rcases caps_through (by decide) hr2 with ⟨p3, x3, r3, hr3, hc3⟩
    rcases caps_through (by decide) hr3 with ⟨p4, x4, r4, hr4, hc4⟩
    rcases grpDateEps_caps hr4 with ⟨c, hc, hshape⟩
    exact ⟨c, by rw [hc1, hc2, hc3, hc4, hc], hshape⟩
  · exact grpDate_caps hm
  · exact absurd hfalse (by simp)

/-- Every scanned match comes from the engine at some position. -/
theorem mem_findAllAux {rx : Rx} :
    ∀ (fuel : Nat) (prev : Option Char) (xs : List Char) (r : MRes),
    r ∈ findAllAux rx fuel prev xs →
    ∃ prev' xs', r ∈ mAll rx prev' xs' := by
  intro fuel
  induction fuel with
  | zero => intro prev xs r hr; simp [findAllAux] at hr
  | succ n ih =>
      intro prev xs r hr
      simp only [findAllAux] at hr
      split at hr
      · next r0 heq =>
          have hr0mem : r0 ∈ mAll rx prev xs :=
            List.mem_of_mem_head? (by simp [heq])
          split at hr
          · rcases List.mem_cons.1 hr with he | hr'
            · exact ⟨prev, xs, he ▸ hr0mem⟩
            · cases xs with
              | nil => simp at hr'
              | cons x rest => exact ih (some x) rest r hr'
          · rcases List.mem_cons.1 hr with he | hr'
            · exact ⟨prev, xs, he ▸ hr0mem⟩
            · exact ih _ _ r hr'
      · next heq =>
          cases xs with
          | nil => simp at hr
          | cons x rest => exact ih (some x) rest r hr

/-- `findSome?` respects pointwise equality on the list. -/
theorem findSome?_congr {α β : Type} (f g : α → Option β) :
    ∀ l : List α, (∀ a ∈ l, f a = g a) →
    l.findSome? f = l.findSome? g := by
  intro l
  induction l with
  | nil => intro _; rfl
  | cons a l' ih =>
      intro h
      rw [List.findSome?_cons, List.findSome?_cons, h a (by simp),
        ih (fun x hx => h x (List.mem_cons_of_mem _ hx))]

/-- C4 (amended): the swap branch is dead code — the date patterns
only admit one- or two-digit first tokens, so `len(day) == 4` never
holds on a pattern-produced match and both extractors are unchanged by
deleting the swap; in particular a year-first `YYYY/MM/DD` date is not
matched at all and yields no date rather than the swapped reading. -/
theorem claim_C4 :
    (∀ t : List Char, extract_date_rad t = extract_date_rad_noswap t)
    ∧ (∀ t : List Char, extract_date_main t = extract_date_main_noswap t)
    ∧ extract_date_rad "le 2022/03/14".data = none
    ∧ extract_date_main "le 2022/03/14".data = none
    ∧ extract_date_rad "Examen(s) du 2022/03/14".data = none := by
  have hcong : ∀ (pats : List Rx),
      (∀ p ∈ pats, ∀ (prev : Option Char) (xs : List Char) (m : MRes),
        m ∈ mAll p prev xs → ∃ c, m.caps = [(1, c)] ∧ dateShape c) →
      ∀ t, extractDateCore tryParseDate pats t =
        extractDateCore tryParseDateNoswap pats t := by
    intro pats hpats t
    unfold extractDateCore
    apply findSome?_congr
    intro p hp
    apply findSome?_congr
    intro m hm
    have hmem : ∃ prev' xs', m ∈ mAll p prev' xs' :=
      mem_findAllAux _ none t m hm
    rcases hmem with ⟨prev', xs', hmem'⟩
    rcases hpats p hp prev' xs' m hmem' with ⟨c, hcaps, hshape⟩
    have hcap : capGetD m 1 = c := by
      simp [capGetD, capGet, hcaps]
    rw [hcap]
    exact tryParse_eq_of_shape hshape
  refine ⟨?_, ?_, by decide, by decide, by decide⟩
  · intro t
    exact hcong [datePat1, datePat2, datePat3, datePat4] datePats_caps t
  · intro t
    refine hcong [datePat1, datePat2, datePat3] ?_ t
    intro p hp
    apply datePats_caps
    simp only [List.mem_cons, List.mem_singleton] at hp ⊢
    tauto

/-- C4 counterexample: the input `"le 2022/03/14"` contains a date
whose first numeric token has four digits, yet the extractor returns
no date at all instead of the year-first reading 2022-03-14. -/
theorem claim_C4_counterexample :
    extract_date_rad "le 2022/03/14".data = none
    ∧ extract_date_main "le 2022/03/14".data = none
    ∧ ¬((none : Option PyDate) = some ⟨2022, 3, 14⟩) :=
  ⟨by decide, by decide, by decide⟩

/-- Witness for C5 at a concrete keyword-free input. -/
theorem claim_C5_witness :
    (EXAM_TO_SPECIALTY.find? (fun p =>
        strContainsB (pyLowerL ("xx".data ++ ' ' :: "yy".data)) p.1.data)
      = none
     ∧ anyKw ["cérébr", "cerveau", "encéphale", "crâne", "crânien",
         "brain", "cerebral"] (pyLowerL ("xx".data ++ ' ' :: "yy".data))
         = false
     ∧ anyKw ["carotide", "sinus", "oro", "facial", "neck"]
         (pyLowerL ("xx".data ++ ' ' :: "yy".data)) = false
     ∧ anyKw ["rachis", "vertébr", "spine", "cervical", "lombaire"]
         (pyLowerL ("xx".data ++ ' ' :: "yy".data)) = false
     ∧ anyKw ["thorax", "poumon", "pulmon", "thoracique", "pulmonary"]
         (pyLowerL ("xx".data ++ ' ' :: "yy".data)) = false)
    ∧ determine_specialty_rad "xx".data "yy".data = "IA".data := by
  refine ⟨by decide, (claim_C5 "xx".data "yy".data).2 (by decide)⟩

end CR
